import Mathlib

/-!
Verification development for the batch payment-disbursement scheduler.

The definitions below are a shallow embedding of the dispatch engine
(`PaymentService.processClients` and its helpers), the job scheduler
(`SchedulerService`), and the HTTP control surface (`PaymentController`).
Pure control flow and counter updates are translated directly; network
outcomes and the random server selection are supplied by an explicit
environment so every run is a total, executable function.
-/

namespace EasySms

/-- One client record as handed to the dispatch engine.  Fresh rows from the
database carry no retry counter, which the source reads as 0
(`client.retryCount || 0`). -/
structure Client where
  msisdn : Nat
  retryCount : Nat
  deriving DecidableEq, Repr

/-- Error classification of a failed request, mirroring the catch branch of
`processSinglePayment`. -/
inductive ErrKind where
  | timeout
  | connection
  | server
  | auth
  | other
  deriving DecidableEq, Repr

/-- The environment decision for one dispatch attempt: whether the HTTP call
succeeds, which server the random draw picks, and how a failure classifies. -/
structure Decision where
  success : Bool
  usePrimary : Bool
  errKind : ErrKind
  deriving DecidableEq, Repr

/-- The environment: for a client (keyed by msisdn) at a given retry counter,
the outcome of that dispatch attempt.  Within one job a client is dispatched
at most once per counter value, so this loses no generality. -/
abbrev Env := Nat → Nat → Decision

/-- Fixed retry cap from the `PaymentService` constructor. -/
def maxRetries : Nat := 3

/-- Aggregate counters of `this.stats`. -/
structure Stats where
  totalRequests : Nat
  successful : Nat
  failed : Nat
  retried : Nat
  primaryServerRequests : Nat
  fallbackServerRequests : Nat
  primaryServerSuccess : Nat
  fallbackServerSuccess : Nat
  errTimeout : Nat
  errConnection : Nat
  errServer : Nat
  errAuth : Nat
  errOther : Nat
  deriving DecidableEq, Repr

/-- The all-zero counters written by `resetStats`. -/
def Stats.zero : Stats :=
  ⟨0, 0, 0, 0, 0, 0, 0, 0, 0, 0, 0, 0, 0⟩

/-- Trace record of one dispatch attempt (ghost state: the source logs the
attempt; we record it to state trace properties). -/
structure Attempt where
  msisdn : Nat
  retryCount : Nat
  success : Bool
  isRetry : Bool
  deriving DecidableEq, Repr

/-- Mutable state of the payment service during a run: counters, the retry
queue (`this.failedQueue`), and the attempt trace. -/
structure PayState where
  stats : Stats
  failedQueue : List Client
  log : List Attempt
  deriving DecidableEq, Repr

/-- Result object returned by `processSinglePayment`. -/
structure PayResult where
  success : Bool
  msisdn : Nat
  retryCount : Nat
  willRetry : Bool
  isRetry : Bool
  deriving DecidableEq, Repr

/-- The `selectServer` helper: counts the request against the randomly chosen
server before the attempt is made. -/
def selectServer (d : Decision) (st : Stats) : Stats :=
  if d.usePrimary then
    { st with primaryServerRequests := st.primaryServerRequests + 1 }
  else
    { st with fallbackServerRequests := st.fallbackServerRequests + 1 }

/-- Error-kind histogram update in the catch branch of
`processSinglePayment`. -/
def classifyError (k : ErrKind) (st : Stats) : Stats :=
  match k with
  | ErrKind.timeout => { st with errTimeout := st.errTimeout + 1 }
  | ErrKind.connection => { st with errConnection := st.errConnection + 1 }
  | ErrKind.server => { st with errServer := st.errServer + 1 }
  | ErrKind.auth => { st with errAuth := st.errAuth + 1 }
  | ErrKind.other => { st with errOther := st.errOther + 1 }

/-- One dispatch attempt (`processSinglePayment`).  On success the counters
`totalRequests`, `successful`, the per-server success counter and, for a
retry, `retried` are incremented.  On failure `totalRequests`, `failed` and
the error histogram are incremented and, while the counter is below
`maxRetries`, a copy with incremented counter is pushed onto the retry
queue. -/
def processSinglePayment (env : Env) (ps : PayState) (client : Client)
    (isRetry : Bool) : PayState × PayResult :=
  let d := env client.msisdn client.retryCount
  let st := selectServer d ps.stats
  if d.success then
    let st := { st with
      totalRequests := st.totalRequests + 1
      successful := st.successful + 1
      retried := if isRetry then st.retried + 1 else st.retried
      primaryServerSuccess :=
        if d.usePrimary then st.primaryServerSuccess + 1
        else st.primaryServerSuccess
      fallbackServerSuccess :=
        if d.usePrimary then st.fallbackServerSuccess
        else st.fallbackServerSuccess + 1 }
    (⟨st, ps.failedQueue,
       ps.log ++ [⟨client.msisdn, client.retryCount, true, isRetry⟩]⟩,
     ⟨true, client.msisdn, client.retryCount, false, isRetry⟩)
  else
    let st := classifyError d.errKind
      { st with totalRequests := st.totalRequests + 1, failed := st.failed + 1 }
    let fq :=
      if client.retryCount < maxRetries then
        ps.failedQueue ++ [{ client with retryCount := client.retryCount + 1 }]
      else
        ps.failedQueue
    (⟨st, fq, ps.log ++ [⟨client.msisdn, client.retryCount, false, isRetry⟩]⟩,
     ⟨false, client.msisdn, client.retryCount,
      decide (client.retryCount < maxRetries), isRetry⟩)

/-- Sequential linearization of `processBatchParallel`: every batch item is
dispatched, each with `isRetry` read off its own counter, and no result is
dropped (all-settled semantics).  Counter updates commute, so the
linearization is count-faithful. -/
def processBatch (env : Env) (ps : PayState) :
    List Client → PayState × List PayResult
  | [] => (ps, [])
  | c :: rest =>
    let step := processSinglePayment env ps c (decide (0 < c.retryCount))
    let recs := processBatch env step.1 rest
    (recs.1, step.2 :: recs.2)

/-- Outcome of one batch-building step of the `processClients` loop:
`regular` and `retry` are the two splice results, `restPrimary` and
`restQueue` what remains of the two queues. -/
structure BatchBuild where
  regular : List Client
  retry : List Client
  restPrimary : List Client
  restQueue : List Client
  deriving DecidableEq, Repr

/-- Batch building exactly as in the loop body:
`regularBatch = allClients.splice(0, max(1, batchSize - failedQueue.length))`
followed by
`retryBatch = failedQueue.splice(0, batchSize - regularBatch.length)`.
Natural subtraction matches the negative-argument clamping of `Math.max` and
`splice`. -/
def buildBatch (allClients failedQueue : List Client) (batchSize : Nat) :
    BatchBuild :=
  let regularCount := max 1 (batchSize - failedQueue.length)
  let regular := allClients.take regularCount
  let restPrimary := allClients.drop regularCount
  let retryTake := batchSize - regular.length
  ⟨regular, failedQueue.take retryTake, restPrimary, failedQueue.drop retryTake⟩

/-- Ceiling division, the total-function rendering of `Math.ceil(a / b)` for
positive `b`. -/
def cdiv (a b : Nat) : Nat := (a + b - 1) / b

/-- Integer fields of the `getStats()` snapshot (the float-valued derived
rates are omitted; no claim concerns them). -/
structure StatsView where
  totalRequests : Nat
  successful : Nat
  failed : Nat
  retried : Nat
  primaryServerRequests : Nat
  fallbackServerRequests : Nat
  primaryServerSuccess : Nat
  fallbackServerSuccess : Nat
  permanentFailures : Int
  errTimeout : Nat
  errConnection : Nat
  errServer : Nat
  errAuth : Nat
  errOther : Nat
  deriving DecidableEq, Repr

/-- The `getStats()` snapshot: counters are copied and
`permanentFailures = failed - retried`, clamped to 0 when negative
(`permanentFailures >= 0 ? permanentFailures : 0`). -/
def getStats (st : Stats) : StatsView :=
  let permanentFailures : Int := (st.failed : Int) - (st.retried : Int)
  { totalRequests := st.totalRequests
    successful := st.successful
    failed := st.failed
    retried := st.retried
    primaryServerRequests := st.primaryServerRequests
    fallbackServerRequests := st.fallbackServerRequests
    primaryServerSuccess := st.primaryServerSuccess
    fallbackServerSuccess := st.fallbackServerSuccess
    permanentFailures :=
      if 0 ≤ permanentFailures then permanentFailures else 0
    errTimeout := st.errTimeout
    errConnection := st.errConnection
    errServer := st.errServer
    errAuth := st.errAuth
    errOther := st.errOther }

/-- Lifecycle events emitted by the dispatch engine, with the payload fields
the specification talks about. -/
inductive Event where
  | processingStarted (totalClients totalBatches batchSize : Nat)
  | batchStarted (batchIndex totalBatches batchSize retryCount : Nat)
  | batchCompleted (batchIndex totalBatches successfulInBatch failedInBatch
      retryCount queuedForRetry : Nat)
  | processingCompleted (totalClients : Nat) (stats : StatsView)
  deriving DecidableEq, Repr

/-- State threaded through the `while` loop of `processClients`. -/
structure LoopState where
  ps : PayState
  allClients : List Client
  batchIndex : Nat
  events : List Event
  results : List PayResult
  deriving DecidableEq, Repr

/-- The `while` loop guard of `processClients`:
`allClients.length > 0 || failedQueue.length > 0`, negated. -/
def stopCond (s : LoopState) : Bool :=
  s.allClients.isEmpty && s.ps.failedQueue.isEmpty

/-- The batch spliced out of the two queues at the head of an iteration. -/
def currentBatchOf (batchSize : Nat) (s : LoopState) : List Client :=
  (buildBatch s.allClients s.ps.failedQueue batchSize).regular ++
    (buildBatch s.allClients s.ps.failedQueue batchSize).retry

/-- One full iteration of the `processClients` loop body: splice the batch,
emit `batchStarted`, dispatch the batch, emit `batchCompleted`. -/
def loopStep (env : Env) (batchSize : Nat) (s : LoopState) : LoopState :=
  let batchIndex := s.batchIndex + 1
  let bb := buildBatch s.allClients s.ps.failedQueue batchSize
  let currentBatch := bb.regular ++ bb.retry
  let retryCount := bb.retry.length
  let ev1 := Event.batchStarted batchIndex
    (cdiv (bb.restPrimary.length + currentBatch.length +
      bb.restQueue.length) batchSize)
    currentBatch.length retryCount
  let step := processBatch env
    { s.ps with failedQueue := bb.restQueue } currentBatch
  let batchResults := step.2
  let successfulInBatch :=
    (batchResults.filter (fun r => r.success)).length
  let failedInBatch :=
    (batchResults.filter (fun r => !r.success)).length
  let ev2 := Event.batchCompleted batchIndex
    (cdiv (bb.restPrimary.length + step.1.failedQueue.length) batchSize
      + batchIndex)
    successfulInBatch failedInBatch retryCount step.1.failedQueue.length
  ⟨step.1, bb.restPrimary, batchIndex,
   s.events ++ [ev1, ev2], s.results ++ batchResults⟩

/-- The `while (allClients.length > 0 || failedQueue.length > 0)` loop of
`processClients`, with explicit fuel (the source terminates because each
iteration consumes retry budget; the fuel chosen in `processClients` is
proved sufficient below).  The inner `if (currentBatch.length === 0) break`
is kept verbatim. -/
def runLoop (env : Env) (batchSize : Nat) :
    Nat → LoopState → LoopState
  | 0, s => s
  | fuel + 1, s =>
    if stopCond s then s
    else if (currentBatchOf batchSize s).isEmpty then s
    else runLoop env batchSize fuel (loopStep env batchSize s)

/-- Observable outcome of one full `processClients` run. -/
structure RunOut where
  events : List Event
  results : List PayResult
  stats : Stats
  statsView : StatsView
  failedQueue : List Client
  remaining : List Client
  log : List Attempt
  batches : Nat
  deriving DecidableEq, Repr

/-- The loop state right after `resetStats`, `failedQueue = []` and the
`processingStarted` emission. -/
def initLoopState (clients : List Client) (batchSize : Nat) : LoopState :=
  ⟨⟨Stats.zero, [], []⟩, clients, 0,
   [Event.processingStarted clients.length
     (cdiv clients.length batchSize) batchSize], []⟩

/-- Fuel sufficient for the run: each loop iteration consumes at least one
unit of retry budget, which starts below `(maxRetries + 2) * clients.length`. -/
def fuelFor (clients : List Client) : Nat :=
  (maxRetries + 2) * clients.length + 1

/-- The dispatch engine, `processClients`: reset statistics and the retry
queue, emit `processingStarted` with the initial batch estimate, run the
batch loop, then emit `processingCompleted` with the final snapshot. -/
def processClients (env : Env) (clients : List Client) (batchSize : Nat) :
    RunOut :=
  let s := runLoop env batchSize (fuelFor clients)
    (initLoopState clients batchSize)
  let view := getStats s.ps.stats
  { events := s.events ++ [Event.processingCompleted clients.length view]
    results := s.results
    stats := s.ps.stats
    statsView := view
    failedQueue := s.ps.failedQueue
    remaining := s.allClients
    log := s.ps.log
    batches := s.batchIndex }

/-! Job scheduler model (`SchedulerService`). -/

/-- Status of a tracked job. -/
inductive JobStatus where
  | running
  | completed
  | failed
  deriving DecidableEq, Repr

/-- The in-memory `currentJob` record as far as the claims observe it. -/
structure SchedJob where
  status : JobStatus
  isScheduled : Bool
  deriving DecidableEq, Repr

/-- Scheduler state observed by the cron callback guard. -/
structure SchedState where
  currentJob : Option SchedJob
  deriving DecidableEq, Repr

/-- Scheduler-level lifecycle events. -/
inductive SchedEvent where
  | jobSkipped
  | jobStarted (isScheduled : Bool)
  | jobCompleted (isScheduled : Bool)
  | jobFailed (isScheduled : Bool)
  deriving DecidableEq, Repr

/-- Observable outcome of one scheduler job entry point: the state after the
call returns, the events it emitted, and whether it invoked the dispatch
engine (`paymentService.processClients`). -/
structure JobRun where
  state : SchedState
  events : List SchedEvent
  dispatchInvoked : Bool
  deriving DecidableEq, Repr

/-- The body of `executeScheduledJob` on the happy path: with zero clients it
returns without creating a job; otherwise it creates the job, runs the
dispatch engine, and clears `currentJob` on completion. -/
def executeScheduledJob (clients : List Client) (s : SchedState) : JobRun :=
  if clients.length = 0 then ⟨s, [], false⟩
  else
    ⟨⟨none⟩, [SchedEvent.jobStarted true, SchedEvent.jobCompleted true], true⟩

/-- The cron timer callback installed by `startScheduler`: when
`currentJob && currentJob.status === running` it emits `jobSkipped` and
returns without touching anything; otherwise it runs the scheduled job. -/
def cronCallback (clients : List Client) (s : SchedState) : JobRun :=
  match s.currentJob with
  | some job =>
    if job.status = JobStatus.running then ⟨s, [SchedEvent.jobSkipped], false⟩
    else executeScheduledJob clients s
  | none => executeScheduledJob clients s

/-- The body of `executeManualJob`: it performs no check of `currentJob`.
With zero clients it throws, the catch clears `currentJob` and emits
`jobFailed`; otherwise it unconditionally replaces `currentJob`, runs the
dispatch engine, and clears `currentJob` on completion. -/
def executeManualJob (clients : List Client) (s : SchedState) : JobRun :=
  if clients.length = 0 then ⟨⟨none⟩, [SchedEvent.jobFailed false], false⟩
  else
    let _ := s
    ⟨⟨none⟩, [SchedEvent.jobStarted false, SchedEvent.jobCompleted false], true⟩

/-! Schedule-time computation (`generateCronExpression`, `getScheduleTimes`,
`getNextRunTime`, `getNextRunTimes`). -/

/-- The loop `for (let hour = 0; hour < 24; hour += intervalHours)`, with a
fuel of 24 iterations, which is enough for every interval of at least one
hour. -/
def scheduleTimesAux (intervalHours : Nat) : Nat → Nat → List Nat
  | 0, _ => []
  | fuel + 1, h =>
    if h < 24 then h :: scheduleTimesAux intervalHours fuel (h + intervalHours)
    else []

/-- The fixed hour-of-day slots used both by `generateCronExpression` and by
`getScheduleTimes`. -/
def getScheduleTimes (intervalHours : Nat) : List Nat :=
  scheduleTimesAux intervalHours 24 0

/-- A local fire time: how many days ahead, the hour of day, and the
minute.  `setHours(h, 0, 0, 0)` always zeroes the minute. -/
structure STime where
  dayOffset : Nat
  hour : Nat
  minute : Nat
  deriving DecidableEq, Repr

/-- The JS `setHours(getHours() + k)` day rollover. -/
def addHours (t : STime) (k : Nat) : STime :=
  ⟨t.dayOffset + (t.hour + k) / 24, (t.hour + k) % 24, t.minute⟩

/-- The `getNextRunTime` computation: the first slot strictly after the
current hour (or the current hour itself at minute zero), else the first
slot of tomorrow. -/
def getNextRunTime (enabled task : Bool) (intervalHours currentHour
    currentMinute : Nat) : Option STime :=
  if !enabled || !task then none
  else
    let scheduleTimes := getScheduleTimes intervalHours
    match scheduleTimes.find? (fun hour =>
        decide (currentHour < hour) ||
        (hour == currentHour && currentMinute == 0)) with
    | some hour => some ⟨0, hour, 0⟩
    | none => some ⟨1, scheduleTimes.headD 0, 0⟩

/-- The loop of `getNextRunTimes` building each time from the previous one by
adding `intervalHours` hours. -/
def buildSchedules (intervalHours : Nat) : Nat → STime → List STime
  | 0, _ => []
  | n + 1, t => t :: buildSchedules intervalHours n (addHours t intervalHours)

/-- The `getNextRunTimes(count)` computation: the first fire time followed by
`count - 1` successors, each `intervalHours` hours after the previous. -/
def getNextRunTimes (enabled task : Bool) (intervalHours currentHour
    currentMinute count : Nat) : List STime :=
  if !enabled || !task then []
  else
    match getNextRunTime enabled task intervalHours currentHour currentMinute with
    | none => []
    | some firstRun =>
      firstRun :: buildSchedules intervalHours (count - 1)
        (addHours firstRun intervalHours)

/-! Control-surface model (`PaymentController.startScheduler` and
`PaymentController.updateSettings`).  A request field goes through
`parseInt`, whose result is either a number or `NaN`; all comparisons
against `NaN` are false in JS. -/

/-- Result of `parseInt` on a request field. -/
inductive JsNum where
  | nan
  | num (v : Int)
  deriving DecidableEq, Repr

/-- JS `<` against an integer constant: false when the left side is `NaN`. -/
def jsLtInt : JsNum → Int → Bool
  | JsNum.nan, _ => false
  | JsNum.num v, c => decide (v < c)

/-- JS `>` against an integer constant: false when the left side is `NaN`. -/
def jsGtInt : JsNum → Int → Bool
  | JsNum.nan, _ => false
  | JsNum.num v, c => decide (c < v)

/-- Scheduler settings as persisted by the controller paths. -/
structure CtrlSettings where
  intervalHours : JsNum
  batchSize : JsNum
  includeInactive : Bool
  enabled : Bool
  deriving DecidableEq, Repr

/-- Outcome of a `POST start` request. -/
inductive StartResult where
  | dbError
  | invalidInterval
  | invalidBatchSize
  | alreadyRunning
  | started (persisted : CtrlSettings)
  deriving DecidableEq, Repr

/-- Whether a start outcome persisted any scheduler state: only the success
path reaches `saveSchedulerState`. -/
def startPersists : StartResult → Bool
  | StartResult.started _ => true
  | _ => false

/-- The `PaymentController.startScheduler` handler: database check, the two
range validations, the already-running rejection, then
`SchedulerService.startScheduler`, which persists the settings with
`enabled: true`. -/
def startSchedulerController (dbConnected : Bool) (hours size : JsNum)
    (includeInactive : Bool) (schedulerEnabled : Bool) : StartResult :=
  if !dbConnected then StartResult.dbError
  else if jsLtInt hours 1 || jsGtInt hours 12 then StartResult.invalidInterval
  else if jsLtInt size 5 || jsGtInt size 100 then StartResult.invalidBatchSize
  else if schedulerEnabled then StartResult.alreadyRunning
  else StartResult.started ⟨hours, size, includeInactive, true⟩

/-- Outcome of a `POST settings` request. -/
inductive UpdateResult where
  | invalidInterval
  | invalidBatchSize
  | updated (persisted : CtrlSettings)
  deriving DecidableEq, Repr

/-- The `PaymentController.updateSettings` handler followed by the service
merge: each supplied field is range-validated, then the partial settings are
merged into the current ones and persisted. -/
def updateSettingsController (hoursField sizeField : Option JsNum)
    (inactiveField : Option Bool) (current : CtrlSettings) : UpdateResult :=
  let badHours := match hoursField with
    | some h => jsLtInt h 1 || jsGtInt h 12
    | none => false
  let badSize := match sizeField with
    | some z => jsLtInt z 5 || jsGtInt z 100
    | none => false
  if badHours then UpdateResult.invalidInterval
  else if badSize then UpdateResult.invalidBatchSize
  else UpdateResult.updated
    { intervalHours := hoursField.getD current.intervalHours
      batchSize := sizeField.getD current.batchSize
      includeInactive := inactiveField.getD current.includeInactive
      enabled := current.enabled }

/-! Helper functions for stating and proving the claims. -/

/-- Sum of a weight function over a list of clients. -/
def sumBy (f : Client → Nat) : List Client → Nat
  | [] => 0
  | c :: rest => f c + sumBy f rest

/-- Retry budget of a queue entry, used as a termination measure: one for the
pending attempt plus one per remaining retry. -/
def pot (c : Client) : Nat := (maxRetries + 1 - c.retryCount) + 1

/-- Remaining retry budget of a whole queue. -/
def potL (l : List Client) : Nat := sumBy pot l

/-- The four aggregate counters agree with the attempt trace: total attempts,
successes, failures and successful retries. -/
def statsCorrespond (ps : PayState) : Prop :=
  ps.stats.totalRequests = ps.log.length ∧
  ps.stats.successful = ps.log.countP (fun a => a.success) ∧
  ps.stats.failed = ps.log.countP (fun a => !a.success) ∧
  ps.stats.retried = ps.log.countP (fun a => a.success && a.isRetry)

/-- Attempt budget a queue entry still holds for the client `x`. -/
def hitW (x : Nat) (c : Client) : Nat :=
  if c.msisdn = x then maxRetries + 1 - c.retryCount else 0

/-- Number of logged dispatch attempts of client `x`. -/
def cntx (x : Nat) (log : List Attempt) : Nat :=
  log.countP (fun a => a.msisdn == x)

/-- The primary splice count `max(1, batchSize - failedQueue.length)`. -/
def regularCountOf (B : Nat) (s : LoopState) : Nat :=
  max 1 (B - s.ps.failedQueue.length)

/-- The retry splice count `batchSize - regularBatch.length`. -/
def retryCountOf (B : Nat) (s : LoopState) : Nat :=
  B - (List.take (regularCountOf B s) s.allClients).length

/-- The retry queue left behind after the two splices. -/
def restQueueOf (B : Nat) (s : LoopState) : List Client :=
  List.drop (retryCountOf B s) s.ps.failedQueue

/-- The payment-service state at the moment the batch starts dispatching. -/
def midStateOf (B : Nat) (s : LoopState) : PayState :=
  { s.ps with failedQueue := restQueueOf B s }

/-- Attempt count carried by one event: the per-batch success and failure
totals of a `batchCompleted` event, zero for all other events. -/
def evAttempts : Event → Nat
  | Event.batchCompleted _ _ a b _ _ => a + b
  | _ => 0

/-- Sum over all events of the per-batch successes plus failures. -/
def batchAttemptSum (evs : List Event) : Nat :=
  (evs.map evAttempts).sum

/-- Environment in which every dispatch attempt fails with a timeout on the
primary server. -/
def envAlwaysFail : Env := fun _ _ => ⟨false, true, ErrKind.timeout⟩

/-- Environment in which every dispatch attempt succeeds on the primary
server. -/
def envAlwaysOk : Env := fun _ _ => ⟨true, true, ErrKind.other⟩

/-- Each logged attempt records the outcome the environment assigns to its
client and counter. -/
def logConsistent (env : Env) (log : List Attempt) : Prop :=
  ∀ a ∈ log, a.success = (env a.msisdn a.retryCount).success

/-- Modelled from the spec for comparison with the source: the batch built
the way claim C2 describes it, filled first from the retry queue and then
from the primary queue, the primary items limited to `batchSize` minus the
number of retry items taken. -/
def buildBatchClaim (allClients failedQueue : List Client)
    (batchSize : Nat) : List Client :=
  let retryPart := failedQueue.take batchSize
  let primaryPart := allClients.take (batchSize - retryPart.length)
  retryPart ++ primaryPart

theorem sumBy_append (f : Client → Nat) (l₁ l₂ : List Client) :
    sumBy f (l₁ ++ l₂) = sumBy f l₁ + sumBy f l₂ := by
  induction l₁ with
  | nil => simp [sumBy]
  | cons c rest ih => simp [sumBy, ih]; omega

theorem sumBy_take_drop (f : Client → Nat) (l : List Client) (n : Nat) :
    sumBy f l = sumBy f (l.take n) + sumBy f (l.drop n) := by
  conv_lhs => rw [← List.take_append_drop n l]
  exact sumBy_append f _ _

theorem length_filter_partition {α : Type} (p : α → Bool) (l : List α) :
    (l.filter p).length + (l.filter (fun a => !p a)).length = l.length := by
  induction l with
  | nil => simp
  | cons a rest ih =>
    by_cases h : p a <;> simp [List.filter, h] <;> omega

theorem pot_le (c : Client) : pot c ≤ maxRetries + 2 := by
  simp only [pot, maxRetries]; omega

theorem potL_le (l : List Client) : potL l ≤ (maxRetries + 2) * l.length := by
  induction l with
  | nil => simp [potL, sumBy]
  | cons c rest ih =>
    have := pot_le c
    simp only [potL, sumBy, List.length_cons] at *
    have : (maxRetries + 2) * (rest.length + 1) =
        (maxRetries + 2) * rest.length + (maxRetries + 2) := by ring
    omega

theorem one_le_pot (c : Client) : 1 ≤ pot c := by simp [pot]

/-! Component equations for a single dispatch attempt. -/

theorem selectServer_counters (d : Decision) (st : Stats) :
    (selectServer d st).totalRequests = st.totalRequests ∧
    (selectServer d st).successful = st.successful ∧
    (selectServer d st).failed = st.failed ∧
    (selectServer d st).retried = st.retried := by
  unfold selectServer; split <;> exact ⟨rfl, rfl, rfl, rfl⟩

theorem classifyError_counters (k : ErrKind) (st : Stats) :
    (classifyError k st).totalRequests = st.totalRequests ∧
    (classifyError k st).successful = st.successful ∧
    (classifyError k st).failed = st.failed ∧
    (classifyError k st).retried = st.retried := by
  cases k <;> exact ⟨rfl, rfl, rfl, rfl⟩

theorem single_log (env : Env) (ps : PayState) (c : Client) (ir : Bool) :
    (processSinglePayment env ps c ir).1.log =
      ps.log ++ [⟨c.msisdn, c.retryCount,
        (env c.msisdn c.retryCount).success, ir⟩] := by
  unfold processSinglePayment
  by_cases h : (env c.msisdn c.retryCount).success <;> simp [h]

theorem single_fq (env : Env) (ps : PayState) (c : Client) (ir : Bool) :
    (processSinglePayment env ps c ir).1.failedQueue =
      if (env c.msisdn c.retryCount).success then ps.failedQueue
      else if c.retryCount < maxRetries then
        ps.failedQueue ++ [{ c with retryCount := c.retryCount + 1 }]
      else ps.failedQueue := by
  unfold processSinglePayment
  by_cases h : (env c.msisdn c.retryCount).success <;> simp [h]

theorem single_totalRequests (env : Env) (ps : PayState) (c : Client)
    (ir : Bool) :
    (processSinglePayment env ps c ir).1.stats.totalRequests =
      ps.stats.totalRequests + 1 := by
  unfold processSinglePayment
  by_cases h : (env c.msisdn c.retryCount).success <;>
    simp [h, (classifyError_counters _ _).1, (selectServer_counters _ _).1]

theorem single_successful (env : Env) (ps : PayState) (c : Client)
    (ir : Bool) :
    (processSinglePayment env ps c ir).1.stats.successful =
      ps.stats.successful +
        (if (env c.msisdn c.retryCount).success then 1 else 0) := by
  unfold processSinglePayment
  by_cases h : (env c.msisdn c.retryCount).success <;>
    simp [h, (classifyError_counters _ _).2.1, (selectServer_counters _ _).2.1]

theorem single_failed (env : Env) (ps : PayState) (c : Client) (ir : Bool) :
    (processSinglePayment env ps c ir).1.stats.failed =
      ps.stats.failed +
        (if (env c.msisdn c.retryCount).success then 0 else 1) := by
  unfold processSinglePayment
  by_cases h : (env c.msisdn c.retryCount).success <;>
    simp [h, (classifyError_counters _ _).2.2.1,
      (selectServer_counters _ _).2.2.1]

theorem single_retried (env : Env) (ps : PayState) (c : Client) (ir : Bool) :
    (processSinglePayment env ps c ir).1.stats.retried =
      ps.stats.retried +
        (if (env c.msisdn c.retryCount).success && ir then 1 else 0) := by
  unfold processSinglePayment
  by_cases h : (env c.msisdn c.retryCount).success <;>
    by_cases hir : ir <;>
    simp [h, hir, (classifyError_counters _ _).2.2.2,
      (selectServer_counters _ _).2.2.2]

theorem single_fq_length (env : Env) (ps : PayState) (c : Client) (ir : Bool) :
    (processSinglePayment env ps c ir).1.failedQueue.length =
      ps.failedQueue.length +
        (if (env c.msisdn c.retryCount).success then 0
         else if c.retryCount < maxRetries then 1 else 0) := by
  rw [single_fq]
  by_cases h : (env c.msisdn c.retryCount).success <;>
    by_cases h2 : c.retryCount < maxRetries <;> simp [h, h2]

theorem single_pot (env : Env) (ps : PayState) (c : Client) (ir : Bool) :
    potL (processSinglePayment env ps c ir).1.failedQueue + 1 ≤
      potL ps.failedQueue + pot c := by
  rw [show potL (processSinglePayment env ps c ir).1.failedQueue =
      sumBy pot (processSinglePayment env ps c ir).1.failedQueue from rfl,
    single_fq]
  have hp := one_le_pot c
  by_cases h : (env c.msisdn c.retryCount).success
  · simp [h, potL]; omega
  · by_cases h2 : c.retryCount < maxRetries
    · simp only [h, h2, if_false, if_true, Bool.false_eq_true]
      rw [sumBy_append]
      simp only [sumBy, potL, pot, maxRetries] at *
      omega
    · simp [h, h2, potL]; omega

theorem single_fq_rc_le (env : Env) (ps : PayState) (c : Client) (ir : Bool)
    (h : ∀ a ∈ ps.failedQueue, a.retryCount ≤ maxRetries) :
    ∀ a ∈ (processSinglePayment env ps c ir).1.failedQueue,
      a.retryCount ≤ maxRetries := by
  rw [single_fq]
  by_cases hs : (env c.msisdn c.retryCount).success
  · simpa [hs] using h
  · by_cases h2 : c.retryCount < maxRetries
    · simp only [hs, h2, if_false, if_true, Bool.false_eq_true]
      intro a ha
      rcases List.mem_append.1 ha with ha | ha
      · exact h a ha
      · simp at ha; subst ha; simp; omega
    · simpa [hs, h2] using h

theorem single_fq_rc_pos (env : Env) (ps : PayState) (c : Client) (ir : Bool)
    (h : ∀ a ∈ ps.failedQueue, 1 ≤ a.retryCount) :
    ∀ a ∈ (processSinglePayment env ps c ir).1.failedQueue,
      1 ≤ a.retryCount := by
  rw [single_fq]
  by_cases hs : (env c.msisdn c.retryCount).success
  · simpa [hs] using h
  · by_cases h2 : c.retryCount < maxRetries
    · simp only [hs, h2, if_false, if_true, Bool.false_eq_true]
      intro a ha
      rcases List.mem_append.1 ha with ha | ha
      · exact h a ha
      · simp at ha; subst ha; simp
    · simpa [hs, h2] using h

/-! Batch-level lemmas, each by induction over the batch. -/

theorem batch_fst_char (env : Env) (batch : List Client) (ps : PayState) :
    (processBatch env ps batch).1 =
      (match batch with
       | [] => ps
       | c :: rest =>
         (processBatch env
           (processSinglePayment env ps c (decide (0 < c.retryCount))).1
           rest).1) := by
  cases batch <;> rfl

theorem batch_pot (env : Env) (batch : List Client) :
    ∀ ps : PayState,
      potL (processBatch env ps batch).1.failedQueue + batch.length ≤
        potL ps.failedQueue + potL batch := by
  induction batch with
  | nil => intro ps; simp [processBatch, potL, sumBy]
  | cons c rest ih =>
    intro ps
    rw [batch_fst_char]
    have h1 := single_pot env ps c (decide (0 < c.retryCount))
    have h2 := ih (processSinglePayment env ps c (decide (0 < c.retryCount))).1
    simp only [List.length_cons, potL, sumBy] at *
    omega

theorem batch_fq_rc_le (env : Env) (batch : List Client) :
    ∀ ps : PayState,
      (∀ a ∈ ps.failedQueue, a.retryCount ≤ maxRetries) →
      ∀ a ∈ (processBatch env ps batch).1.failedQueue,
        a.retryCount ≤ maxRetries := by
  induction batch with
  | nil => intro ps h; simpa [processBatch] using h
  | cons c rest ih =>
    intro ps h
    rw [batch_fst_char]
    exact ih _ (single_fq_rc_le env ps c _ h)

theorem batch_fq_rc_pos (env : Env) (batch : List Client) :
    ∀ ps : PayState,
      (∀ a ∈ ps.failedQueue, 1 ≤ a.retryCount) →
      ∀ a ∈ (processBatch env ps batch).1.failedQueue,
        1 ≤ a.retryCount := by
  induction batch with
  | nil => intro ps h; simpa [processBatch] using h
  | cons c rest ih =>
    intro ps h
    rw [batch_fst_char]
    exact ih _ (single_fq_rc_pos env ps c _ h)

theorem batch_log_length (env : Env) (batch : List Client) :
    ∀ ps : PayState,
      (processBatch env ps batch).1.log.length =
        ps.log.length + batch.length := by
  induction batch with
  | nil => intro ps; simp [processBatch]
  | cons c rest ih =>
    intro ps
    rw [batch_fst_char]
    rw [ih, single_log]
    simp; omega

theorem batch_results_length (env : Env) (batch : List Client) :
    ∀ ps : PayState,
      (processBatch env ps batch).2.length = batch.length := by
  induction batch with
  | nil => intro ps; simp [processBatch]
  | cons c rest ih =>
    intro ps
    simp only [processBatch, List.length_cons]
    rw [ih]

theorem single_statsCorrespond (env : Env) (ps : PayState) (c : Client)
    (ir : Bool) (h : statsCorrespond ps) :
    statsCorrespond (processSinglePayment env ps c ir).1 := by
  obtain ⟨h1, h2, h3, h4⟩ := h
  refine ⟨?_, ?_, ?_, ?_⟩
  · rw [single_totalRequests, single_log, h1]; simp
  · rw [single_successful, single_log, h2]
    by_cases hs : (env c.msisdn c.retryCount).success <;>
      simp [hs, List.countP_append, List.countP_cons]
  · rw [single_failed, single_log, h3]
    by_cases hs : (env c.msisdn c.retryCount).success <;>
      simp [hs, List.countP_append, List.countP_cons]
  · rw [single_retried, single_log, h4]
    by_cases hs : (env c.msisdn c.retryCount).success <;>
      by_cases hir : ir <;>
      simp [hs, hir, List.countP_append, List.countP_cons]

theorem batch_statsCorrespond (env : Env) (batch : List Client) :
    ∀ ps : PayState, statsCorrespond ps →
      statsCorrespond (processBatch env ps batch).1 := by
  induction batch with
  | nil => intro ps h; simpa [processBatch] using h
  | cons c rest ih =>
    intro ps h
    rw [batch_fst_char]
    exact ih _ (single_statsCorrespond env ps c _ h)

theorem batch_c5_bound (env : Env) (batch : List Client) :
    ∀ ps : PayState,
      ps.stats.retried + ps.failedQueue.length +
        batch.countP (fun c => decide (0 < c.retryCount)) ≤ ps.stats.failed →
      (processBatch env ps batch).1.stats.retried +
        (processBatch env ps batch).1.failedQueue.length ≤
        (processBatch env ps batch).1.stats.failed := by
  induction batch with
  | nil => intro ps h; simpa [processBatch] using h
  | cons c rest ih =>
    intro ps h
    rw [batch_fst_char]
    apply ih
    have hr := single_retried env ps c (decide (0 < c.retryCount))
    have hf := single_failed env ps c (decide (0 < c.retryCount))
    have hq := single_fq_length env ps c (decide (0 < c.retryCount))
    rw [List.countP_cons] at h
    by_cases hs : (env c.msisdn c.retryCount).success <;>
      by_cases hpos : 0 < c.retryCount <;>
      by_cases hlt : c.retryCount < maxRetries <;>
      simp [hs, hpos, hlt] at hr hf hq h ⊢ <;>
      omega

/-! Per-client attempt potential, used to prove the retry cap. -/

theorem single_phi_le (env : Env) (ps : PayState) (c : Client) (ir : Bool)
    (x : Nat) (hrc : c.retryCount ≤ maxRetries) :
    cntx x (processSinglePayment env ps c ir).1.log +
      sumBy (hitW x) (processSinglePayment env ps c ir).1.failedQueue ≤
      cntx x ps.log + sumBy (hitW x) ps.failedQueue + hitW x c := by
  rw [show (processSinglePayment env ps c ir).1.failedQueue =
      (processSinglePayment env ps c ir).1.failedQueue from rfl]
  rw [single_fq, single_log]
  simp only [cntx, List.countP_append, List.countP_cons, List.countP_nil]
  by_cases hx : c.msisdn = x
  · by_cases hs : (env c.msisdn c.retryCount).success
    · simp only [hs, if_true]
      simp only [hitW, hx, if_true, maxRetries] at *
      simp
      omega
    · by_cases h2 : c.retryCount < maxRetries
      · simp only [hs, h2, if_true, if_false, Bool.false_eq_true,
          sumBy_append]
        simp only [hitW, hx, if_true, sumBy, maxRetries] at *
        simp
        omega
      · simp only [hs, h2, if_false, Bool.false_eq_true]
        simp only [hitW, hx, if_true, maxRetries] at *
        simp
        omega
  · have hx2 : (c.msisdn == x) = false := by simp [hx]
    by_cases hs : (env c.msisdn c.retryCount).success
    · simp [hs, hx2, hitW, hx]
    · by_cases h2 : c.retryCount < maxRetries
      · simp only [hs, h2, if_true, if_false, Bool.false_eq_true,
          sumBy_append]
        simp [hitW, hx, hx2, sumBy]
      · simp [hs, h2, hx2, hitW, hx]

theorem single_phi_eq (env : Env) (ps : PayState) (c : Client) (ir : Bool)
    (x : Nat) (hrc : c.retryCount ≤ maxRetries)
    (hfail : ∀ rc, (env x rc).success = false) :
    cntx x (processSinglePayment env ps c ir).1.log +
      sumBy (hitW x) (processSinglePayment env ps c ir).1.failedQueue =
      cntx x ps.log + sumBy (hitW x) ps.failedQueue + hitW x c := by
  rw [single_fq, single_log]
  simp only [cntx, List.countP_append, List.countP_cons, List.countP_nil]
  by_cases hx : c.msisdn = x
  · have hs : (env c.msisdn c.retryCount).success = false := by
      rw [hx]; exact hfail c.retryCount
    by_cases h2 : c.retryCount < maxRetries
    · simp only [hs, h2, if_true, if_false, Bool.false_eq_true, sumBy_append]
      simp only [hitW, hx, if_true, sumBy, maxRetries] at *
      simp
      omega
    · simp only [hs, h2, if_false, Bool.false_eq_true]
      simp only [hitW, hx, if_true, maxRetries] at *
      simp
      omega
  · have hx2 : (c.msisdn == x) = false := by simp [hx]
    by_cases hs : (env c.msisdn c.retryCount).success
    · simp [hs, hx2, hitW, hx]
    · by_cases h2 : c.retryCount < maxRetries
      · simp only [hs, h2, if_true, if_false, Bool.false_eq_true,
          sumBy_append]
        simp [hitW, hx, hx2, sumBy]
      · simp [hs, h2, hx2, hitW, hx]

theorem batch_phi_le (env : Env) (x : Nat) (batch : List Client) :
    ∀ ps : PayState, (∀ c ∈ batch, c.retryCount ≤ maxRetries) →
      cntx x (processBatch env ps batch).1.log +
        sumBy (hitW x) (processBatch env ps batch).1.failedQueue ≤
        cntx x ps.log + sumBy (hitW x) ps.failedQueue +
          sumBy (hitW x) batch := by
  induction batch with
  | nil => intro ps _; simp [processBatch, sumBy]
  | cons c rest ih =>
    intro ps hall
    rw [batch_fst_char]
    have h1 := single_phi_le env ps c (decide (0 < c.retryCount)) x
      (hall c (by simp))
    have h2 := ih (processSinglePayment env ps c (decide (0 < c.retryCount))).1
      (fun a ha => hall a (by simp [ha]))
    simp only [sumBy] at *
    omega

theorem batch_phi_eq (env : Env) (x : Nat) (batch : List Client)
    (hfail : ∀ rc, (env x rc).success = false) :
    ∀ ps : PayState, (∀ c ∈ batch, c.retryCount ≤ maxRetries) →
      cntx x (processBatch env ps batch).1.log +
        sumBy (hitW x) (processBatch env ps batch).1.failedQueue =
        cntx x ps.log + sumBy (hitW x) ps.failedQueue +
          sumBy (hitW x) batch := by
  induction batch with
  | nil => intro ps _; simp [processBatch, sumBy]
  | cons c rest ih =>
    intro ps hall
    rw [batch_fst_char]
    have h1 := single_phi_eq env ps c (decide (0 < c.retryCount)) x
      (hall c (by simp)) hfail
    have h2 := ih (processSinglePayment env ps c (decide (0 < c.retryCount))).1
      (fun a ha => hall a (by simp [ha]))
    simp only [sumBy] at *
    omega

/-! Arithmetic about ceiling division and list bookkeeping. -/

theorem isEmpty_false_iff {α : Type} (l : List α) :
    l.isEmpty = false ↔ l ≠ [] := by
  cases l <;> simp

theorem cdiv_zero_of_pos (B : Nat) (hB : 1 ≤ B) : cdiv 0 B = 0 := by
  unfold cdiv; exact Nat.div_eq_of_lt (by omega)

theorem cdiv_mono (a b B : Nat) (h : a ≤ b) : cdiv a B ≤ cdiv b B :=
  Nat.div_le_div_right (by omega)

theorem cdiv_sub_le (L B : Nat) (hB : 1 ≤ B) :
    cdiv L B ≤ cdiv (L - B) B + 1 := by
  rcases le_or_lt L B with h | h
  · have h1 : cdiv L B ≤ 1 := by
      unfold cdiv
      have h2 : (L + B - 1) / B < 2 :=
        (Nat.div_lt_iff_lt_mul (by omega)).2 (by omega)
      omega
    omega
  · have he : L + B - 1 = (L - B + B - 1) + B := by omega
    unfold cdiv
    rw [he, Nat.add_div_right _ (by omega)]

theorem take_drop_length {α : Type} (l : List α) (n : Nat) :
    l.length = (l.take n).length + (l.drop n).length := by
  conv_lhs => rw [← List.take_append_drop n l]
  exact List.length_append _ _

/-! Structural facts about the batch-building step. -/

theorem buildBatch_regular_eq (P R : List Client) (B : Nat) :
    (buildBatch P R B).regular = P.take (max 1 (B - R.length)) := rfl

theorem buildBatch_restPrimary_eq (P R : List Client) (B : Nat) :
    (buildBatch P R B).restPrimary = P.drop (max 1 (B - R.length)) := rfl

theorem buildBatch_retry_eq (P R : List Client) (B : Nat) :
    (buildBatch P R B).retry =
      R.take (B - (buildBatch P R B).regular.length) := rfl

theorem buildBatch_restQueue_eq (P R : List Client) (B : Nat) :
    (buildBatch P R B).restQueue =
      R.drop (B - (buildBatch P R B).regular.length) := rfl

theorem currentBatch_ne (B : Nat) (hB : 1 ≤ B) (s : LoopState)
    (h : stopCond s = false) :
    (currentBatchOf B s).isEmpty = false := by
  rw [isEmpty_false_iff]
  unfold stopCond at h
  unfold currentBatchOf
  by_cases ha : s.allClients = []
  · have hq : s.ps.failedQueue ≠ [] := by
      intro hq; rw [ha, hq] at h; simp at h
    intro hcontra
    rcases List.append_eq_nil.1 hcontra with ⟨_, h2⟩
    rw [buildBatch_retry_eq] at h2
    rw [buildBatch_regular_eq, ha] at h2
    simp at h2
    rcases h2 with h2 | h2
    · omega
    · exact hq h2
  · intro hcontra
    rcases List.append_eq_nil.1 hcontra with ⟨h1, _⟩
    rw [buildBatch_regular_eq] at h1
    rcases List.take_eq_nil_iff.mp h1 with h1 | h1
    · omega
    · exact ha h1

theorem currentBatch_len_pos (B : Nat) (s : LoopState)
    (hne : (currentBatchOf B s).isEmpty = false) :
    1 ≤ (currentBatchOf B s).length := by
  cases hcb : currentBatchOf B s with
  | nil => rw [hcb] at hne; simp at hne
  | cons a t => simp [hcb]

theorem currentBatchOf_eq (B : Nat) (s : LoopState) :
    currentBatchOf B s =
      List.take (regularCountOf B s) s.allClients ++
      List.take (retryCountOf B s) s.ps.failedQueue := rfl

theorem loopStep_allClients (env : Env) (B : Nat) (s : LoopState) :
    (loopStep env B s).allClients =
      List.drop (regularCountOf B s) s.allClients := rfl

theorem loopStep_ps (env : Env) (B : Nat) (s : LoopState) :
    (loopStep env B s).ps =
      (processBatch env (midStateOf B s) (currentBatchOf B s)).1 := rfl

theorem loopStep_batchIndex (env : Env) (B : Nat) (s : LoopState) :
    (loopStep env B s).batchIndex = s.batchIndex + 1 := rfl

theorem midStateOf_failedQueue (B : Nat) (s : LoopState) :
    (midStateOf B s).failedQueue = restQueueOf B s := rfl

theorem midStateOf_stats (B : Nat) (s : LoopState) :
    (midStateOf B s).stats = s.ps.stats := rfl

theorem midStateOf_log (B : Nat) (s : LoopState) :
    (midStateOf B s).log = s.ps.log := rfl

theorem loopStep_pot (env : Env) (B : Nat) (s : LoopState)
    (hne : (currentBatchOf B s).isEmpty = false) :
    potL (loopStep env B s).allClients +
      potL (loopStep env B s).ps.failedQueue + 1 ≤
      potL s.allClients + potL s.ps.failedQueue := by
  have hlen := currentBatch_len_pos B s hne
  rw [loopStep_allClients, loopStep_ps]
  have hbp := batch_pot env (currentBatchOf B s) (midStateOf B s)
  rw [midStateOf_failedQueue] at hbp
  have hcbl : potL (currentBatchOf B s) =
      potL (List.take (regularCountOf B s) s.allClients) +
      potL (List.take (retryCountOf B s) s.ps.failedQueue) := by
    rw [currentBatchOf_eq]; exact sumBy_append _ _ _
  have hs1 := sumBy_take_drop pot s.allClients (regularCountOf B s)
  have hs2 := sumBy_take_drop pot s.ps.failedQueue (retryCountOf B s)
  unfold restQueueOf at hbp
  simp only [potL] at *
  omega

/-! Loop-level lemmas, each by induction on the fuel. -/

theorem runLoop_drains (env : Env) (B : Nat) (hB : 1 ≤ B) :
    ∀ (fuel : Nat) (s : LoopState),
      potL s.allClients + potL s.ps.failedQueue < fuel →
      (runLoop env B fuel s).allClients = [] ∧
      (runLoop env B fuel s).ps.failedQueue = [] := by
  intro fuel
  induction fuel with
  | zero => intro s h; omega
  | succ fuel ih =>
    intro s h
    simp only [runLoop]
    by_cases hstop : stopCond s
    · simp only [hstop, if_true]
      unfold stopCond at hstop
      simp only [Bool.and_eq_true, List.isEmpty_iff] at hstop
      exact hstop
    · have hbatch := currentBatch_ne B hB s (by simpa using hstop)
      simp only [hstop, hbatch, if_false, Bool.false_eq_true]
      apply ih
      have := loopStep_pot env B s hbatch
      omega

theorem runLoop_batches (env : Env) (B : Nat) (hB : 1 ≤ B) :
    ∀ (fuel : Nat) (s : LoopState),
      potL s.allClients + potL s.ps.failedQueue < fuel →
      s.batchIndex + cdiv s.allClients.length B ≤
        (runLoop env B fuel s).batchIndex := by
  intro fuel
  induction fuel with
  | zero => intro s h; omega
  | succ fuel ih =>
    intro s h
    simp only [runLoop]
    by_cases hstop : stopCond s
    · simp only [hstop, if_true]
      unfold stopCond at hstop
      simp only [Bool.and_eq_true, List.isEmpty_iff] at hstop
      rw [hstop.1]
      simp [cdiv_zero_of_pos B hB]
    · have hbatch := currentBatch_ne B hB s (by simpa using hstop)
      simp only [hstop, hbatch, if_false, Bool.false_eq_true]
      have hpot := loopStep_pot env B s hbatch
      have hrec := ih (loopStep env B s) (by omega)
      have hidx : (loopStep env B s).batchIndex = s.batchIndex + 1 := rfl
      have hrest : (loopStep env B s).allClients =
          s.allClients.drop (max 1 (B - s.ps.failedQueue.length)) := rfl
      have htake : (max 1 (B - s.ps.failedQueue.length)) ≤ B := by omega
      have hdroplen : (loopStep env B s).allClients.length =
          s.allClients.length - (max 1 (B - s.ps.failedQueue.length)) := by
        rw [hrest, List.length_drop]
      have hstep : cdiv s.allClients.length B ≤
          cdiv (loopStep env B s).allClients.length B + 1 := by
        calc cdiv s.allClients.length B ≤
            cdiv (s.allClients.length - B) B + 1 := cdiv_sub_le _ _ hB
          _ ≤ cdiv (loopStep env B s).allClients.length B + 1 := by
              have := cdiv_mono (s.allClients.length - B)
                (loopStep env B s).allClients.length B (by omega)
              omega
      omega

theorem runLoop_statsCorrespond (env : Env) (B : Nat) :
    ∀ (fuel : Nat) (s : LoopState), statsCorrespond s.ps →
      statsCorrespond (runLoop env B fuel s).ps := by
  intro fuel
  induction fuel with
  | zero => intro s h; exact h
  | succ fuel ih =>
    intro s h
    simp only [runLoop]
    by_cases hstop : stopCond s
    · simp only [hstop, if_true]; exact h
    · simp only [hstop, if_false, Bool.false_eq_true]
      by_cases hbatch : (currentBatchOf B s).isEmpty
      · simp only [hbatch, if_true]; exact h
      · simp only [hbatch, if_false, Bool.false_eq_true]
        apply ih
        rw [loopStep_ps]
        exact batch_statsCorrespond env (currentBatchOf B s) (midStateOf B s) h

theorem loopStep_events (env : Env) (B : Nat) (s : LoopState) :
    (loopStep env B s).events = s.events ++
      [Event.batchStarted (s.batchIndex + 1)
        (cdiv ((List.drop (regularCountOf B s) s.allClients).length +
          (currentBatchOf B s).length + (restQueueOf B s).length) B)
        (currentBatchOf B s).length
        (List.take (retryCountOf B s) s.ps.failedQueue).length,
       Event.batchCompleted (s.batchIndex + 1)
        (cdiv ((List.drop (regularCountOf B s) s.allClients).length +
          (processBatch env (midStateOf B s)
            (currentBatchOf B s)).1.failedQueue.length) B +
          (s.batchIndex + 1))
        ((processBatch env (midStateOf B s)
          (currentBatchOf B s)).2.filter (fun r => r.success)).length
        ((processBatch env (midStateOf B s)
          (currentBatchOf B s)).2.filter (fun r => !r.success)).length
        (List.take (retryCountOf B s) s.ps.failedQueue).length
        (processBatch env (midStateOf B s)
          (currentBatchOf B s)).1.failedQueue.length] := rfl

theorem runLoop_eventSum (env : Env) (B : Nat) :
    ∀ (fuel : Nat) (s : LoopState),
      batchAttemptSum (runLoop env B fuel s).events + s.ps.log.length =
        batchAttemptSum s.events + (runLoop env B fuel s).ps.log.length := by
  intro fuel
  induction fuel with
  | zero => intro s; rfl
  | succ fuel ih =>
    intro s
    simp only [runLoop]
    by_cases hstop : stopCond s
    · simp only [hstop, if_true]
    · simp only [hstop, if_false, Bool.false_eq_true]
      by_cases hbatch : (currentBatchOf B s).isEmpty
      · simp only [hbatch, if_true]
      · simp only [hbatch, if_false, Bool.false_eq_true]
        have hrec := ih (loopStep env B s)
        have hsum : batchAttemptSum (loopStep env B s).events =
            batchAttemptSum s.events +
            (((processBatch env (midStateOf B s)
                (currentBatchOf B s)).2.filter (fun r => r.success)).length +
             ((processBatch env (midStateOf B s)
                (currentBatchOf B s)).2.filter (fun r => !r.success)).length)
            := by
          rw [loopStep_events]
          simp [batchAttemptSum, evAttempts]
        have hpart := length_filter_partition (fun r : PayResult => r.success)
          (processBatch env (midStateOf B s) (currentBatchOf B s)).2
        have hreslen := batch_results_length env (currentBatchOf B s)
          (midStateOf B s)
        have hlog : (loopStep env B s).ps.log.length =
            s.ps.log.length + (currentBatchOf B s).length := by
          rw [loopStep_ps, batch_log_length]
          rfl
        omega

theorem runLoop_phi (env : Env) (B : Nat) (x : Nat) :
    ∀ (fuel : Nat) (s : LoopState),
      (∀ c ∈ s.allClients, c.retryCount ≤ maxRetries) →
      (∀ c ∈ s.ps.failedQueue, c.retryCount ≤ maxRetries) →
      (cntx x (runLoop env B fuel s).ps.log +
        sumBy (hitW x) (runLoop env B fuel s).allClients +
        sumBy (hitW x) (runLoop env B fuel s).ps.failedQueue ≤
        cntx x s.ps.log + sumBy (hitW x) s.allClients +
          sumBy (hitW x) s.ps.failedQueue) ∧
      ((∀ rc, (env x rc).success = false) →
        cntx x (runLoop env B fuel s).ps.log +
          sumBy (hitW x) (runLoop env B fuel s).allClients +
          sumBy (hitW x) (runLoop env B fuel s).ps.failedQueue =
          cntx x s.ps.log + sumBy (hitW x) s.allClients +
            sumBy (hitW x) s.ps.failedQueue) := by
  intro fuel
  induction fuel with
  | zero => intro s _ _; exact ⟨le_refl _, fun _ => rfl⟩
  | succ fuel ih =>
    intro s hall hfq
    simp only [runLoop]
    by_cases hstop : stopCond s
    · simp only [hstop, if_true]; exact ⟨le_refl _, fun _ => trivial⟩
    · simp only [hstop, if_false, Bool.false_eq_true]
      by_cases hbatch : (currentBatchOf B s).isEmpty
      · simp only [hbatch, if_true]; exact ⟨le_refl _, fun _ => trivial⟩
      · simp only [hbatch, if_false, Bool.false_eq_true]
        have hbrc : ∀ c ∈ currentBatchOf B s, c.retryCount ≤ maxRetries := by
          rw [currentBatchOf_eq]
          intro c hc
          rcases List.mem_append.1 hc with hc | hc
          · exact hall c (List.take_subset _ _ hc)
          · exact hfq c (List.take_subset _ _ hc)
        have hmidfq : ∀ c ∈ (midStateOf B s).failedQueue,
            c.retryCount ≤ maxRetries := by
          rw [midStateOf_failedQueue]
          intro c hc
          exact hfq c (List.drop_subset _ _ hc)
        have hall2 : ∀ c ∈ (loopStep env B s).allClients,
            c.retryCount ≤ maxRetries := by
          rw [loopStep_allClients]
          intro c hc
          exact hall c (List.drop_subset _ _ hc)
        have hfq2 : ∀ c ∈ (loopStep env B s).ps.failedQueue,
            c.retryCount ≤ maxRetries := by
          rw [loopStep_ps]
          exact batch_fq_rc_le env (currentBatchOf B s) (midStateOf B s) hmidfq
        have hrec := ih (loopStep env B s) hall2 hfq2
        have hble := batch_phi_le env x (currentBatchOf B s)
          (midStateOf B s) hbrc
        rw [midStateOf_failedQueue, midStateOf_log] at hble
        have hcbl : sumBy (hitW x) (currentBatchOf B s) =
            sumBy (hitW x) (List.take (regularCountOf B s) s.allClients) +
            sumBy (hitW x)
              (List.take (retryCountOf B s) s.ps.failedQueue) := by
          rw [currentBatchOf_eq]; exact sumBy_append _ _ _
        have hs1 := sumBy_take_drop (hitW x) s.allClients (regularCountOf B s)
        have hs2 := sumBy_take_drop (hitW x) s.ps.failedQueue
          (retryCountOf B s)
        have hnexta : (loopStep env B s).allClients =
            List.drop (regularCountOf B s) s.allClients := rfl
        have hnextp : (loopStep env B s).ps =
            (processBatch env (midStateOf B s) (currentBatchOf B s)).1 := rfl
        unfold restQueueOf at hble
        constructor
        · calc cntx x (runLoop env B fuel (loopStep env B s)).ps.log +
              sumBy (hitW x)
                (runLoop env B fuel (loopStep env B s)).allClients +
              sumBy (hitW x)
                (runLoop env B fuel (loopStep env B s)).ps.failedQueue ≤
              cntx x (loopStep env B s).ps.log +
                sumBy (hitW x) (loopStep env B s).allClients +
                sumBy (hitW x) (loopStep env B s).ps.failedQueue :=
              hrec.1
            _ ≤ cntx x s.ps.log + sumBy (hitW x) s.allClients +
                sumBy (hitW x) s.ps.failedQueue := by
              rw [hnexta, hnextp]
              omega
        · intro hfail
          have hbeq := batch_phi_eq env x (currentBatchOf B s) hfail
            (midStateOf B s) hbrc
          rw [midStateOf_failedQueue, midStateOf_log] at hbeq
          unfold restQueueOf at hbeq
          have h2 := hrec.2 hfail
          rw [hnexta, hnextp] at h2
          rw [h2]
          omega

theorem runLoop_c5 (env : Env) (B : Nat) :
    ∀ (fuel : Nat) (s : LoopState),
      (∀ c ∈ s.allClients, c.retryCount = 0) →
      (∀ c ∈ s.ps.failedQueue, 1 ≤ c.retryCount) →
      s.ps.stats.retried + s.ps.failedQueue.length ≤ s.ps.stats.failed →
      (runLoop env B fuel s).ps.stats.retried +
        (runLoop env B fuel s).ps.failedQueue.length ≤
        (runLoop env B fuel s).ps.stats.failed := by
  intro fuel
  induction fuel with
  | zero => intro s _ _ h; exact h
  | succ fuel ih =>
    intro s hall hfq h
    simp only [runLoop]
    by_cases hstop : stopCond s
    · simp only [hstop, if_true]; exact h
    · simp only [hstop, if_false, Bool.false_eq_true]
      by_cases hbatch : (currentBatchOf B s).isEmpty
      · simp only [hbatch, if_true]; exact h
      · simp only [hbatch, if_false, Bool.false_eq_true]
        have hall2 : ∀ c ∈ (loopStep env B s).allClients,
            c.retryCount = 0 := by
          rw [loopStep_allClients]
          intro c hc
          exact hall c (List.drop_subset _ _ hc)
        have hmidfq : ∀ c ∈ (midStateOf B s).failedQueue,
            1 ≤ c.retryCount := by
          rw [midStateOf_failedQueue]
          intro c hc
          exact hfq c (List.drop_subset _ _ hc)
        have hfq2 : ∀ c ∈ (loopStep env B s).ps.failedQueue,
            1 ≤ c.retryCount := by
          rw [loopStep_ps]
          exact batch_fq_rc_pos env (currentBatchOf B s) (midStateOf B s)
            hmidfq
        apply ih (loopStep env B s) hall2 hfq2
        rw [loopStep_ps]
        apply batch_c5_bound
        have hreg : (List.take (regularCountOf B s)
            s.allClients).countP (fun c => decide (0 < c.retryCount)) = 0 := by
          rw [List.countP_eq_zero]
          intro c hc
          have := hall c (List.take_subset _ _ hc)
          simp [this]
        have hret : (List.take (retryCountOf B s)
            s.ps.failedQueue).countP (fun c => decide (0 < c.retryCount)) =
            (List.take (retryCountOf B s) s.ps.failedQueue).length := by
          rw [List.countP_eq_length]
          intro c hc
          have := hfq c (List.take_subset _ _ hc)
          simp; omega
        have hsplit := take_drop_length s.ps.failedQueue (retryCountOf B s)
        have hcb : (currentBatchOf B s).countP
            (fun c => decide (0 < c.retryCount)) =
            (List.take (regularCountOf B s) s.allClients).countP
              (fun c => decide (0 < c.retryCount)) +
            (List.take (retryCountOf B s) s.ps.failedQueue).countP
              (fun c => decide (0 < c.retryCount)) := by
          rw [currentBatchOf_eq, List.countP_append]
        rw [midStateOf_failedQueue, midStateOf_stats]
        unfold restQueueOf
        rw [hcb, hreg, hret]
        omega

/-! Facts tying `processClients` to the loop lemmas. -/

theorem processClients_log (env : Env) (clients : List Client) (B : Nat) :
    (processClients env clients B).log =
      (runLoop env B (fuelFor clients) (initLoopState clients B)).ps.log :=
  rfl

theorem processClients_stats (env : Env) (clients : List Client) (B : Nat) :
    (processClients env clients B).stats =
      (runLoop env B (fuelFor clients) (initLoopState clients B)).ps.stats :=
  rfl

theorem processClients_statsView (env : Env) (clients : List Client)
    (B : Nat) :
    (processClients env clients B).statsView =
      getStats
        (runLoop env B (fuelFor clients) (initLoopState clients B)).ps.stats :=
  rfl

theorem processClients_batches (env : Env) (clients : List Client) (B : Nat) :
    (processClients env clients B).batches =
      (runLoop env B (fuelFor clients) (initLoopState clients B)).batchIndex :=
  rfl

theorem processClients_events (env : Env) (clients : List Client) (B : Nat) :
    (processClients env clients B).events =
      (runLoop env B (fuelFor clients) (initLoopState clients B)).events ++
        [Event.processingCompleted clients.length
          (getStats (runLoop env B (fuelFor clients)
            (initLoopState clients B)).ps.stats)] :=
  rfl

theorem fuel_ok (clients : List Client) :
    potL (initLoopState clients B).allClients +
      potL (initLoopState clients B).ps.failedQueue < fuelFor clients := by
  unfold fuelFor
  have h := potL_le clients
  have h0 : potL (initLoopState clients B).ps.failedQueue = 0 := rfl
  have h1 : (initLoopState clients B).allClients = clients := rfl
  rw [h0, h1]
  omega

theorem sumBy_hitW_of_zero (x : Nat) (l : List Client)
    (h0 : ∀ c ∈ l, c.retryCount = 0) :
    sumBy (hitW x) l =
      (maxRetries + 1) * l.countP (fun c => c.msisdn == x) := by
  induction l with
  | nil => rfl
  | cons c rest ih =>
    have hc := h0 c (by simp)
    have hr := ih (fun a ha => h0 a (by simp [ha]))
    simp only [sumBy, List.countP_cons, hitW, hc]
    by_cases hx : c.msisdn = x
    · have hbeq : (x == x) = true := by simp
      simp only [hx, if_true, hr, Nat.sub_zero, hbeq]
      ring
    · have hx2 : (c.msisdn == x) = false := by simp [hx]
      simp [hx, hx2, hr]

theorem run_attempts_le (env : Env) (clients : List Client) (B x : Nat)
    (hB : 1 ≤ B) (h0 : ∀ c ∈ clients, c.retryCount = 0)
    (hx : clients.countP (fun c => c.msisdn == x) = 1) :
    cntx x (processClients env clients B).log ≤ maxRetries + 1 := by
  rw [processClients_log]
  have hall : ∀ c ∈ (initLoopState clients B).allClients,
      c.retryCount ≤ maxRetries := by
    intro c hc; have := h0 c hc; omega
  have hfq : ∀ c ∈ (initLoopState clients B).ps.failedQueue,
      c.retryCount ≤ maxRetries := by
    intro c hc; simp [initLoopState] at hc
  have hphi := (runLoop_phi env B x (fuelFor clients)
    (initLoopState clients B) hall hfq).1
  have hdrain := runLoop_drains env B hB (fuelFor clients)
    (initLoopState clients B) (fuel_ok clients)
  rw [hdrain.1, hdrain.2] at hphi
  have hz1 : sumBy (hitW x) ([] : List Client) = 0 := rfl
  have hz2 : cntx x (initLoopState clients B).ps.log = 0 := rfl
  have hz3 : sumBy (hitW x) (initLoopState clients B).ps.failedQueue = 0 :=
    rfl
  have hinit : (initLoopState clients B).allClients = clients := rfl
  rw [hz1, hz2, hz3, hinit] at hphi
  rw [sumBy_hitW_of_zero x clients h0, hx] at hphi
  omega

theorem batchAttemptSum_append_single (evs : List Event) (e : Event) :
    batchAttemptSum (evs ++ [e]) = batchAttemptSum evs + evAttempts e := by
  simp [batchAttemptSum]

theorem countP_partition {α : Type} (p : α → Bool) (l : List α) :
    l.countP p + l.countP (fun a => !p a) = l.length := by
  rw [List.countP_eq_length_filter, List.countP_eq_length_filter]
  exact length_filter_partition p l

theorem getStats_perm (st : Stats) (h : st.retried ≤ st.failed) :
    (getStats st).permanentFailures = (st.failed : Int) - (st.retried : Int) ∧
    0 ≤ (getStats st).permanentFailures := by
  have hpos : (0 : Int) ≤ (st.failed : Int) - (st.retried : Int) := by omega
  unfold getStats
  simp only [if_pos hpos]
  exact ⟨trivial, hpos⟩

theorem run_attempts_eq (env : Env) (clients : List Client) (B x : Nat)
    (hB : 1 ≤ B) (h0 : ∀ c ∈ clients, c.retryCount = 0)
    (hx : clients.countP (fun c => c.msisdn == x) = 1)
    (hfail : ∀ rc, (env x rc).success = false) :
    cntx x (processClients env clients B).log = maxRetries + 1 := by
  rw [processClients_log]
  have hall : ∀ c ∈ (initLoopState clients B).allClients,
      c.retryCount ≤ maxRetries := by
    intro c hc; have := h0 c hc; omega
  have hfq : ∀ c ∈ (initLoopState clients B).ps.failedQueue,
      c.retryCount ≤ maxRetries := by
    intro c hc; simp [initLoopState] at hc
  have hphi := (runLoop_phi env B x (fuelFor clients)
    (initLoopState clients B) hall hfq).2 hfail
  have hdrain := runLoop_drains env B hB (fuelFor clients)
    (initLoopState clients B) (fuel_ok clients)
  rw [hdrain.1, hdrain.2] at hphi
  have hz1 : sumBy (hitW x) ([] : List Client) = 0 := rfl
  have hz2 : cntx x (initLoopState clients B).ps.log = 0 := rfl
  have hz3 : sumBy (hitW x) (initLoopState clients B).ps.failedQueue = 0 :=
    rfl
  have hinit : (initLoopState clients B).allClients = clients := rfl
  rw [hz1, hz2, hz3, hinit] at hphi
  rw [sumBy_hitW_of_zero x clients h0, hx] at hphi
  omega

/-- C3: an item that fails on every attempt is dispatched exactly
`maxRetries + 1` (= 4) times over the whole job and never more: it is
requeued with an incremented counter only while its counter is below
`maxRetries` and dropped once the counter reaches the cap. -/
theorem retry_cap_attempts (env : Env) (clients : List Client) (B x : Nat)
    (hB : 1 ≤ B) (h0 : ∀ c ∈ clients, c.retryCount = 0)
    (hx : clients.countP (fun c => c.msisdn == x) = 1) :
    cntx x (processClients env clients B).log ≤ maxRetries + 1 ∧
    ((∀ rc, (env x rc).success = false) →
      cntx x (processClients env clients B).log = maxRetries + 1) :=
  ⟨run_attempts_le env clients B x hB h0 hx,
   fun hfail => run_attempts_eq env clients B x hB h0 hx hfail⟩

/-- Witness for C3 at a concrete run: one always-failing client, batch
size 5. -/
theorem retry_cap_attempts_witness :
    ((1 : Nat) ≤ 5 ∧ (∀ c ∈ ([⟨1, 0⟩] : List Client), c.retryCount = 0) ∧
      ([⟨1, 0⟩] : List Client).countP (fun c => c.msisdn == 1) = 1) ∧
    (cntx 1 (processClients envAlwaysFail [⟨1, 0⟩] 5).log ≤ maxRetries + 1 ∧
      ((∀ rc, (envAlwaysFail 1 rc).success = false) →
        cntx 1 (processClients envAlwaysFail [⟨1, 0⟩] 5).log =
          maxRetries + 1)) :=
  ⟨⟨by decide, by decide, by decide⟩,
   retry_cap_attempts envAlwaysFail [⟨1, 0⟩] 5 1 (by decide) (by decide)
     (by decide)⟩

/-- C5: in the final statistics snapshot of a run over fresh clients,
`permanentFailures = failed - retried` and this value is nonnegative. -/
theorem permanent_failures_nonneg (env : Env) (clients : List Client)
    (B : Nat) (h0 : ∀ c ∈ clients, c.retryCount = 0) :
    (processClients env clients B).statsView.permanentFailures =
      ((processClients env clients B).statsView.failed : Int) -
        ((processClients env clients B).statsView.retried : Int) ∧
    0 ≤ (processClients env clients B).statsView.permanentFailures := by
  have h0i : ∀ c ∈ (initLoopState clients B).allClients,
      c.retryCount = 0 := h0
  have hfqi : ∀ c ∈ (initLoopState clients B).ps.failedQueue,
      1 ≤ c.retryCount := by
    intro c hc; simp [initLoopState] at hc
  have hinv : (initLoopState clients B).ps.stats.retried +
      (initLoopState clients B).ps.failedQueue.length ≤
      (initLoopState clients B).ps.stats.failed := le_refl 0
  have hc5 := runLoop_c5 env B (fuelFor clients) (initLoopState clients B)
    h0i hfqi hinv
  have hle : (runLoop env B (fuelFor clients)
      (initLoopState clients B)).ps.stats.retried ≤
      (runLoop env B (fuelFor clients)
        (initLoopState clients B)).ps.stats.failed := by omega
  rw [processClients_statsView]
  exact getStats_perm _ hle

/-- Witness for C5 at a concrete run: one always-failing client, batch
size 5. -/
theorem permanent_failures_nonneg_witness :
    (∀ c ∈ ([⟨2, 0⟩] : List Client), c.retryCount = 0) ∧
    ((processClients envAlwaysFail [⟨2, 0⟩] 5).statsView.permanentFailures =
      ((processClients envAlwaysFail [⟨2, 0⟩] 5).statsView.failed : Int) -
        ((processClients envAlwaysFail [⟨2, 0⟩] 5).statsView.retried : Int) ∧
      0 ≤ (processClients envAlwaysFail
        [⟨2, 0⟩] 5).statsView.permanentFailures) :=
  ⟨by decide, permanent_failures_nonneg envAlwaysFail [⟨2, 0⟩] 5 (by decide)⟩

/-- C6: the run executes at least `ceil(length / batchSize)` batches, the
sum over all `batchCompleted` events of per-batch successes plus failures
equals the `totalRequests` counter, and `successful + failed =
totalRequests` in the final snapshot. -/
theorem batch_count_attempt_accounting (env : Env) (clients : List Client)
    (B : Nat) (hB : 1 ≤ B) :
    cdiv clients.length B ≤ (processClients env clients B).batches ∧
    batchAttemptSum (processClients env clients B).events =
      (processClients env clients B).statsView.totalRequests ∧
    (processClients env clients B).statsView.successful +
      (processClients env clients B).statsView.failed =
      (processClients env clients B).statsView.totalRequests := by
  have hsc0 : statsCorrespond (initLoopState clients B).ps :=
    ⟨rfl, rfl, rfl, rfl⟩
  have hsc := runLoop_statsCorrespond env B (fuelFor clients)
    (initLoopState clients B) hsc0
  obtain ⟨ht, hs, hf, hr⟩ := hsc
  refine ⟨?_, ?_, ?_⟩
  · rw [processClients_batches]
    have hb := runLoop_batches env B hB (fuelFor clients)
      (initLoopState clients B) (fuel_ok clients)
    have h1 : (initLoopState clients B).batchIndex = 0 := rfl
    have h2 : (initLoopState clients B).allClients = clients := rfl
    rw [h1, h2] at hb
    omega
  · rw [processClients_events, batchAttemptSum_append_single]
    have hes := runLoop_eventSum env B (fuelFor clients)
      (initLoopState clients B)
    have h3 : (initLoopState clients B).ps.log.length = 0 := rfl
    have h4 : batchAttemptSum (initLoopState clients B).events = 0 := rfl
    rw [h3, h4] at hes
    have h5 : (processClients env clients B).statsView.totalRequests =
        (runLoop env B (fuelFor clients)
          (initLoopState clients B)).ps.stats.totalRequests := rfl
    have h6 : evAttempts (Event.processingCompleted clients.length
        (getStats (runLoop env B (fuelFor clients)
          (initLoopState clients B)).ps.stats)) = 0 := rfl
    rw [h5, h6, ht]
    omega
  · have h7 : (processClients env clients B).statsView.successful =
        (runLoop env B (fuelFor clients)
          (initLoopState clients B)).ps.stats.successful := rfl
    have h8 : (processClients env clients B).statsView.failed =
        (runLoop env B (fuelFor clients)
          (initLoopState clients B)).ps.stats.failed := rfl
    have h9 : (processClients env clients B).statsView.totalRequests =
        (runLoop env B (fuelFor clients)
          (initLoopState clients B)).ps.stats.totalRequests := rfl
    rw [h7, h8, h9, ht, hs, hf]
    exact countP_partition (fun a : Attempt => a.success) _

/-- Witness for C6 at a concrete run: two all-success clients, batch
size 5. -/
theorem batch_count_attempt_accounting_witness :
    (1 : Nat) ≤ 5 ∧
    (cdiv (List.length ([⟨1, 0⟩, ⟨2, 0⟩] : List Client)) 5 ≤
      (processClients envAlwaysOk [⟨1, 0⟩, ⟨2, 0⟩] 5).batches ∧
    batchAttemptSum (processClients envAlwaysOk [⟨1, 0⟩, ⟨2, 0⟩] 5).events =
      (processClients envAlwaysOk
        [⟨1, 0⟩, ⟨2, 0⟩] 5).statsView.totalRequests ∧
    (processClients envAlwaysOk [⟨1, 0⟩, ⟨2, 0⟩] 5).statsView.successful +
      (processClients envAlwaysOk [⟨1, 0⟩, ⟨2, 0⟩] 5).statsView.failed =
      (processClients envAlwaysOk
        [⟨1, 0⟩, ⟨2, 0⟩] 5).statsView.totalRequests) :=
  ⟨by decide,
   batch_count_attempt_accounting envAlwaysOk [⟨1, 0⟩, ⟨2, 0⟩] 5 (by decide)⟩

/-- C7: a run over an empty client list emits `processingStarted` and then
`processingCompleted` with all-zero statistics and emits no `batchStarted`
or `batchCompleted` events (the event list is exactly those two events). -/
theorem empty_run_lifecycle (env : Env) (B : Nat) (hB : 1 ≤ B) :
    (processClients env [] B).events =
      [Event.processingStarted 0 0 B,
       Event.processingCompleted 0 (getStats Stats.zero)] ∧
    (processClients env [] B).results = [] ∧
    (processClients env [] B).statsView = getStats Stats.zero ∧
    getStats Stats.zero =
      ⟨0, 0, 0, 0, 0, 0, 0, 0, 0, 0, 0, 0, 0, 0⟩ := by
  refine ⟨?_, rfl, rfl, by decide⟩
  have h1 : (processClients env [] B).events =
      [Event.processingStarted 0 (cdiv 0 B) B,
       Event.processingCompleted 0 (getStats Stats.zero)] := rfl
  rw [h1, cdiv_zero_of_pos B hB]

/-- Witness for C7 at batch size 10. -/
theorem empty_run_lifecycle_witness :
    (1 : Nat) ≤ 10 ∧
    ((processClients envAlwaysFail [] 10).events =
      [Event.processingStarted 0 0 10,
       Event.processingCompleted 0 (getStats Stats.zero)] ∧
    (processClients envAlwaysFail [] 10).results = [] ∧
    (processClients envAlwaysFail [] 10).statsView = getStats Stats.zero ∧
    getStats Stats.zero =
      ⟨0, 0, 0, 0, 0, 0, 0, 0, 0, 0, 0, 0, 0, 0⟩) :=
  ⟨by decide, empty_run_lifecycle envAlwaysFail 10 (by decide)⟩

theorem single_logConsistent (env : Env) (ps : PayState) (c : Client)
    (ir : Bool) (h : logConsistent env ps.log) :
    logConsistent env (processSinglePayment env ps c ir).1.log := by
  rw [single_log]
  intro a ha
  rcases List.mem_append.1 ha with ha | ha
  · exact h a ha
  · simp at ha; subst ha; rfl

theorem batch_logConsistent (env : Env) (batch : List Client) :
    ∀ ps : PayState, logConsistent env ps.log →
      logConsistent env (processBatch env ps batch).1.log := by
  induction batch with
  | nil => intro ps h; exact h
  | cons c rest ih =>
    intro ps h
    rw [batch_fst_char]
    exact ih _ (single_logConsistent env ps c _ h)

theorem runLoop_logConsistent (env : Env) (B : Nat) :
    ∀ (fuel : Nat) (s : LoopState), logConsistent env s.ps.log →
      logConsistent env (runLoop env B fuel s).ps.log := by
  intro fuel
  induction fuel with
  | zero => intro s h; exact h
  | succ fuel ih =>
    intro s h
    simp only [runLoop]
    by_cases hstop : stopCond s
    · simp only [hstop, if_true]; exact h
    · simp only [hstop, if_false, Bool.false_eq_true]
      by_cases hbatch : (currentBatchOf B s).isEmpty
      · simp only [hbatch, if_true]; exact h
      · simp only [hbatch, if_false, Bool.false_eq_true]
        apply ih
        rw [loopStep_ps]
        exact batch_logConsistent env (currentBatchOf B s) (midStateOf B s) h

theorem countP_congr_mem {α : Type} (p q : α → Bool) (l : List α)
    (h : ∀ a ∈ l, p a = q a) : l.countP p = l.countP q := by
  induction l with
  | nil => rfl
  | cons a rest ih =>
    have ha := h a (by simp)
    have hr := ih (fun b hb => h b (by simp [hb]))
    simp [List.countP_cons, ha, hr]

/-- C4 counterexample: a single client that fails every attempt contributes
4 (= maxRetries + 1) to `failed` — one per attempt — and 0 to `retried`, so
`permanentFailures` is 4 for this one never-succeeding item, not 1 as the
claim states. -/
theorem failed_counts_attempts_counterexample :
    (processClients envAlwaysFail [⟨7, 0⟩] 5).statsView.failed = 4 ∧
    ¬ (processClients envAlwaysFail [⟨7, 0⟩] 5).statsView.failed = 1 ∧
    (processClients envAlwaysFail [⟨7, 0⟩] 5).statsView.retried = 0 ∧
    (processClients envAlwaysFail [⟨7, 0⟩] 5).statsView.permanentFailures = 4
    := by decide

/-- C4 (amended): an item that fails on every attempt up to the cap
contributes `maxRetries + 1` failed attempts to the `failed` counter (which
counts attempts, one per failure) and nothing to `retried` (which counts
only successful retry attempts); `permanentFailures = failed - retried`
therefore counts the failed attempts of never-succeeding items, not the
items themselves. -/
theorem always_fail_stats_contribution (env : Env) (clients : List Client)
    (B x : Nat) (hB : 1 ≤ B) (h0 : ∀ c ∈ clients, c.retryCount = 0)
    (hx : clients.countP (fun c => c.msisdn == x) = 1)
    (hfail : ∀ rc, (env x rc).success = false) :
    (processClients env clients B).log.countP
      (fun a => a.msisdn == x && !a.success) = maxRetries + 1 ∧
    (processClients env clients B).log.countP
      (fun a => a.msisdn == x && a.success && a.isRetry) = 0 ∧
    (processClients env clients B).statsView.failed =
      (processClients env clients B).log.countP (fun a => !a.success) ∧
    (processClients env clients B).statsView.retried =
      (processClients env clients B).log.countP
        (fun a => a.success && a.isRetry) := by
  have hcons : logConsistent env (processClients env clients B).log := by
    rw [processClients_log]
    apply runLoop_logConsistent
    intro a ha
    simp [initLoopState] at ha
  have hxfail : ∀ a ∈ (processClients env clients B).log,
      a.msisdn = x → a.success = false := by
    intro a ha hm
    rw [hcons a ha, hm]
    exact hfail a.retryCount
  have hsc0 : statsCorrespond (initLoopState clients B).ps :=
    ⟨rfl, rfl, rfl, rfl⟩
  have hsc := runLoop_statsCorrespond env B (fuelFor clients)
    (initLoopState clients B) hsc0
  obtain ⟨ht, hs, hf, hr⟩ := hsc
  refine ⟨?_, ?_, ?_, ?_⟩
  · have hcong : ∀ a ∈ (processClients env clients B).log,
        (a.msisdn == x && !a.success) = (a.msisdn == x) := by
      intro a ha
      by_cases hm : a.msisdn = x
      · have hsa := hxfail a ha hm
        simp [hm, hsa]
      · have hm2 : (a.msisdn == x) = false := by simp [hm]
        simp [hm2]
    rw [countP_congr_mem _ _ _ hcong]
    exact run_attempts_eq env clients B x hB h0 hx hfail
  · rw [List.countP_eq_zero]
    intro a ha
    by_cases hm : a.msisdn = x
    · have hsa := hxfail a ha hm
      simp [hm, hsa]
    · have hm2 : (a.msisdn == x) = false := by simp [hm]
      simp [hm2]
  · rw [processClients_log]
    exact hf
  · rw [processClients_log]
    exact hr

/-- Witness for the amended C4 at a concrete run: one always-failing
client, batch size 5. -/
theorem always_fail_stats_contribution_witness :
    ((1 : Nat) ≤ 5 ∧ (∀ c ∈ ([⟨7, 0⟩] : List Client), c.retryCount = 0) ∧
      ([⟨7, 0⟩] : List Client).countP (fun c => c.msisdn == 7) = 1 ∧
      (∀ rc, (envAlwaysFail 7 rc).success = false)) ∧
    ((processClients envAlwaysFail [⟨7, 0⟩] 5).log.countP
      (fun a => a.msisdn == 7 && !a.success) = maxRetries + 1 ∧
    (processClients envAlwaysFail [⟨7, 0⟩] 5).log.countP
      (fun a => a.msisdn == 7 && a.success && a.isRetry) = 0 ∧
    (processClients envAlwaysFail [⟨7, 0⟩] 5).statsView.failed =
      (processClients envAlwaysFail [⟨7, 0⟩] 5).log.countP
        (fun a => !a.success) ∧
    (processClients envAlwaysFail [⟨7, 0⟩] 5).statsView.retried =
      (processClients envAlwaysFail [⟨7, 0⟩] 5).log.countP
        (fun a => a.success && a.isRetry)) :=
  ⟨⟨by decide, by decide, by decide, fun _ => rfl⟩,
   always_fail_stats_contribution envAlwaysFail [⟨7, 0⟩] 5 7 (by decide)
     (by decide) (by decide) (fun _ => rfl)⟩

/-- C2 counterexample: with one primary client, five queued retries and
batch size 5, the source takes `max(1, 5 - 5) = 1` primary item first and
only 4 retries, while the claim's retry-first rule would take all 5 retries
and no primary item. -/
theorem batch_fill_order_counterexample :
    ((buildBatch [⟨6, 0⟩] [⟨1, 1⟩, ⟨2, 1⟩, ⟨3, 1⟩, ⟨4, 1⟩, ⟨5, 1⟩] 5).regular
      ++ (buildBatch [⟨6, 0⟩]
        [⟨1, 1⟩, ⟨2, 1⟩, ⟨3, 1⟩, ⟨4, 1⟩, ⟨5, 1⟩] 5).retry) ≠
      buildBatchClaim [⟨6, 0⟩] [⟨1, 1⟩, ⟨2, 1⟩, ⟨3, 1⟩, ⟨4, 1⟩, ⟨5, 1⟩] 5 ∧
    (buildBatch [⟨6, 0⟩]
      [⟨1, 1⟩, ⟨2, 1⟩, ⟨3, 1⟩, ⟨4, 1⟩, ⟨5, 1⟩] 5).retry.length = 4 ∧
    (buildBatch [⟨6, 0⟩]
      [⟨1, 1⟩, ⟨2, 1⟩, ⟨3, 1⟩, ⟨4, 1⟩, ⟨5, 1⟩] 5).regular = [⟨6, 0⟩] ∧
    ((buildBatchClaim [⟨6, 0⟩] [⟨1, 1⟩, ⟨2, 1⟩, ⟨3, 1⟩, ⟨4, 1⟩, ⟨5, 1⟩]
      5).filter (fun c => decide (0 < c.retryCount))).length = 5 := by
  decide

/-- C2 (amended): each batch holds at most `batchSize` items, but is filled
primary-first: `max(1, batchSize - retryQueue.length)` primary items are
spliced first (so with at least `batchSize` queued retries and a nonempty
primary queue, exactly one primary item is taken), then retries fill the
remaining capacity; with an empty retry queue the batch is
`min(batchSize, primary.length)` primary items. -/
theorem batch_build_shape (P R : List Client) (B : Nat) (hB : 1 ≤ B) :
    ((buildBatch P R B).regular ++ (buildBatch P R B).retry).length ≤ B ∧
    (∀ c ∈ (buildBatch P R B).regular, c ∈ P) ∧
    (∀ c ∈ (buildBatch P R B).retry, c ∈ R) ∧
    (B ≤ R.length → P ≠ [] →
      (buildBatch P R B).regular.length = 1 ∧
      (buildBatch P R B).retry.length = B - 1) ∧
    (R = [] → (buildBatch P R B).regular.length = min B P.length ∧
      (buildBatch P R B).retry = []) := by
  have hreg : (buildBatch P R B).regular.length =
      min (max 1 (B - R.length)) P.length := by
    rw [buildBatch_regular_eq, List.length_take]
  have hret : (buildBatch P R B).retry.length =
      min (B - (buildBatch P R B).regular.length) R.length := by
    rw [buildBatch_retry_eq, List.length_take]
  refine ⟨?_, ?_, ?_, ?_, ?_⟩
  · rw [List.length_append]
    omega
  · rw [buildBatch_regular_eq]
    exact fun c hc => List.take_subset _ _ hc
  · rw [buildBatch_retry_eq]
    exact fun c hc => List.take_subset _ _ hc
  · intro hBR hP
    have hPlen : 1 ≤ P.length := List.length_pos.2 hP
    constructor
    · omega
    · omega
  · intro hR
    subst hR
    constructor
    · simp at hreg
      omega
    · rw [buildBatch_retry_eq]
      exact List.take_nil

/-- Witness for the amended C2 at the counterexample input. -/
theorem batch_build_shape_witness :
    (1 : Nat) ≤ 5 ∧
    (((buildBatch [⟨6, 0⟩] [⟨1, 1⟩, ⟨2, 1⟩, ⟨3, 1⟩, ⟨4, 1⟩, ⟨5, 1⟩]
        5).regular ++
      (buildBatch [⟨6, 0⟩] [⟨1, 1⟩, ⟨2, 1⟩, ⟨3, 1⟩, ⟨4, 1⟩, ⟨5, 1⟩]
        5).retry).length ≤ 5 ∧
    (∀ c ∈ (buildBatch [⟨6, 0⟩] [⟨1, 1⟩, ⟨2, 1⟩, ⟨3, 1⟩, ⟨4, 1⟩, ⟨5, 1⟩]
      5).regular, c ∈ ([⟨6, 0⟩] : List Client)) ∧
    (∀ c ∈ (buildBatch [⟨6, 0⟩] [⟨1, 1⟩, ⟨2, 1⟩, ⟨3, 1⟩, ⟨4, 1⟩, ⟨5, 1⟩]
      5).retry,
      c ∈ ([⟨1, 1⟩, ⟨2, 1⟩, ⟨3, 1⟩, ⟨4, 1⟩, ⟨5, 1⟩] : List Client)) ∧
    (5 ≤ ([⟨1, 1⟩, ⟨2, 1⟩, ⟨3, 1⟩, ⟨4, 1⟩, ⟨5, 1⟩] : List Client).length →
      ([⟨6, 0⟩] : List Client) ≠ [] →
      (buildBatch [⟨6, 0⟩] [⟨1, 1⟩, ⟨2, 1⟩, ⟨3, 1⟩, ⟨4, 1⟩, ⟨5, 1⟩]
        5).regular.length = 1 ∧
      (buildBatch [⟨6, 0⟩] [⟨1, 1⟩, ⟨2, 1⟩, ⟨3, 1⟩, ⟨4, 1⟩, ⟨5, 1⟩]
        5).retry.length = 5 - 1) ∧
    (([⟨1, 1⟩, ⟨2, 1⟩, ⟨3, 1⟩, ⟨4, 1⟩, ⟨5, 1⟩] : List Client) = [] →
      (buildBatch [⟨6, 0⟩] [⟨1, 1⟩, ⟨2, 1⟩, ⟨3, 1⟩, ⟨4, 1⟩, ⟨5, 1⟩]
        5).regular.length = min 5 ([⟨6, 0⟩] : List Client).length ∧
      (buildBatch [⟨6, 0⟩] [⟨1, 1⟩, ⟨2, 1⟩, ⟨3, 1⟩, ⟨4, 1⟩, ⟨5, 1⟩]
        5).retry = [])) :=
  ⟨by decide,
   batch_build_shape [⟨6, 0⟩] [⟨1, 1⟩, ⟨2, 1⟩, ⟨3, 1⟩, ⟨4, 1⟩, ⟨5, 1⟩] 5
     (by decide)⟩

/-- C1 counterexample: with a running current job, `executeManualJob` still
invokes the dispatch engine (it is neither rejected nor skipped), while the
timer callback in the same state correctly skips. -/
theorem manual_run_unguarded_counterexample :
    (executeManualJob [⟨1, 0⟩]
      ⟨some ⟨JobStatus.running, true⟩⟩).dispatchInvoked = true ∧
    (executeManualJob [⟨1, 0⟩] ⟨some ⟨JobStatus.running, true⟩⟩).events =
      [SchedEvent.jobStarted false, SchedEvent.jobCompleted false] ∧
    (cronCallback [⟨1, 0⟩]
      ⟨some ⟨JobStatus.running, true⟩⟩).dispatchInvoked = false ∧
    (cronCallback [⟨1, 0⟩] ⟨some ⟨JobStatus.running, true⟩⟩).events =
      [SchedEvent.jobSkipped] := by
  decide

/-- C1 (amended): while a job is running, a timer fire emits `jobSkipped`
and does not invoke the dispatch engine; `executeManualJob`, however, has no
such guard and starts a new dispatch-engine run (whenever the client list is
nonempty) even while a job is active. -/
theorem cron_guard_single_flight (clients : List Client) (s : SchedState)
    (j : SchedJob) (hj : s.currentJob = some j)
    (hr : j.status = JobStatus.running) :
    cronCallback clients s = ⟨s, [SchedEvent.jobSkipped], false⟩ ∧
    (clients ≠ [] → (executeManualJob clients s).dispatchInvoked = true) := by
  constructor
  · unfold cronCallback
    rw [hj]
    simp [hr]
  · intro hne
    have hl : ¬ clients.length = 0 := fun h => hne (List.length_eq_zero.mp h)
    unfold executeManualJob
    simp [hl]

/-- Witness for the amended C1 in the running-job state. -/
theorem cron_guard_single_flight_witness :
    ((⟨some ⟨JobStatus.running, true⟩⟩ : SchedState).currentJob =
        some ⟨JobStatus.running, true⟩ ∧
      (⟨JobStatus.running, true⟩ : SchedJob).status = JobStatus.running) ∧
    (cronCallback [⟨1, 0⟩] ⟨some ⟨JobStatus.running, true⟩⟩ =
      ⟨⟨some ⟨JobStatus.running, true⟩⟩, [SchedEvent.jobSkipped], false⟩ ∧
    (([⟨1, 0⟩] : List Client) ≠ [] →
      (executeManualJob [⟨1, 0⟩]
        ⟨some ⟨JobStatus.running, true⟩⟩).dispatchInvoked = true)) :=
  ⟨⟨rfl, rfl⟩,
   cron_guard_single_flight [⟨1, 0⟩] ⟨some ⟨JobStatus.running, true⟩⟩
     ⟨JobStatus.running, true⟩ rfl rfl⟩

/-- C8 counterexample: an in-bounds start request (interval 4, batch 75)
issued while the scheduler is already enabled is rejected with the
already-running error and nothing is persisted, so being within both bounds
does not suffice for `enabled=true` to be persisted. -/
theorem start_inbounds_rejected_counterexample :
    startSchedulerController true (JsNum.num 4) (JsNum.num 75) false true =
      StartResult.alreadyRunning ∧
    startPersists (startSchedulerController true (JsNum.num 4) (JsNum.num 75)
      false true) = false := by
  decide

/-- C8 (amended): with the database check passing, an out-of-bounds
interval or batch size is rejected synchronously with the corresponding
validation error and nothing is persisted; an in-bounds request persists the
settings with `enabled=true` only when the scheduler is not already enabled,
and is rejected as already running (with no persistence) otherwise. -/
theorem start_validation_characterization (hv sv : Int) (ii en : Bool) :
    ((1 ≤ hv ∧ hv ≤ 12 ∧ 5 ≤ sv ∧ sv ≤ 100 ∧ en = false) →
      startSchedulerController true (JsNum.num hv) (JsNum.num sv) ii en =
        StartResult.started ⟨JsNum.num hv, JsNum.num sv, ii, true⟩) ∧
    ((hv < 1 ∨ 12 < hv) →
      startSchedulerController true (JsNum.num hv) (JsNum.num sv) ii en =
        StartResult.invalidInterval ∧
      startPersists (startSchedulerController true (JsNum.num hv)
        (JsNum.num sv) ii en) = false) ∧
    ((1 ≤ hv ∧ hv ≤ 12 ∧ (sv < 5 ∨ 100 < sv)) →
      startSchedulerController true (JsNum.num hv) (JsNum.num sv) ii en =
        StartResult.invalidBatchSize ∧
      startPersists (startSchedulerController true (JsNum.num hv)
        (JsNum.num sv) ii en) = false) ∧
    ((1 ≤ hv ∧ hv ≤ 12 ∧ 5 ≤ sv ∧ sv ≤ 100 ∧ en = true) →
      startSchedulerController true (JsNum.num hv) (JsNum.num sv) ii en =
        StartResult.alreadyRunning ∧
      startPersists (startSchedulerController true (JsNum.num hv)
        (JsNum.num sv) ii en) = false) := by
  refine ⟨?_, ?_, ?_, ?_⟩
  · rintro ⟨h1, h2, h3, h4, h5⟩
    subst h5
    have c1 : decide (hv < 1) = false := decide_eq_false (by omega)
    have c2 : decide ((12 : Int) < hv) = false := decide_eq_false (by omega)
    have c3 : decide (sv < 5) = false := decide_eq_false (by omega)
    have c4 : decide ((100 : Int) < sv) = false := decide_eq_false (by omega)
    simp [startSchedulerController, jsLtInt, jsGtInt, c1, c2, c3, c4]
  · intro h
    have c0 : (decide (hv < 1) || decide ((12 : Int) < hv)) = true := by
      rcases h with h | h <;> simp [h]
    constructor <;>
      simp [startSchedulerController, jsLtInt, jsGtInt, c0, startPersists]
  · rintro ⟨h1, h2, h3⟩
    have c1 : decide (hv < 1) = false := decide_eq_false (by omega)
    have c2 : decide ((12 : Int) < hv) = false := decide_eq_false (by omega)
    have c0 : (decide (sv < 5) || decide ((100 : Int) < sv)) = true := by
      rcases h3 with h | h <;> simp [h]
    constructor <;>
      simp [startSchedulerController, jsLtInt, jsGtInt, c1, c2, c0,
        startPersists]
  · rintro ⟨h1, h2, h3, h4, h5⟩
    subst h5
    have c1 : decide (hv < 1) = false := decide_eq_false (by omega)
    have c2 : decide ((12 : Int) < hv) = false := decide_eq_false (by omega)
    have c3 : decide (sv < 5) = false := decide_eq_false (by omega)
    have c4 : decide ((100 : Int) < sv) = false := decide_eq_false (by omega)
    constructor <;>
      simp [startSchedulerController, jsLtInt, jsGtInt, c1, c2, c3, c4,
        startPersists]

/-- Witness for the amended C8: the in-bounds request while disabled is
persisted together with `enabled=true`. -/
theorem start_validation_characterization_witness :
    startSchedulerController true (JsNum.num 4) (JsNum.num 75) false false =
      StartResult.started ⟨JsNum.num 4, JsNum.num 75, false, true⟩ :=
  (start_validation_characterization 4 75 false false).1
    ⟨by norm_num, by norm_num, by norm_num, by norm_num, rfl⟩

/-- C10: a field that parses to `NaN` fails both range comparisons, so
neither the start nor the settings-update validation rejects it, and the
`NaN` value is passed to the scheduler and persisted. -/
theorem nan_bypasses_range_validation (ii : Bool)
    (inactiveField : Option Bool) (current : CtrlSettings) :
    jsLtInt JsNum.nan 1 = false ∧ jsGtInt JsNum.nan 12 = false ∧
    jsLtInt JsNum.nan 5 = false ∧ jsGtInt JsNum.nan 100 = false ∧
    startSchedulerController true JsNum.nan JsNum.nan ii false =
      StartResult.started ⟨JsNum.nan, JsNum.nan, ii, true⟩ ∧
    updateSettingsController (some JsNum.nan) (some JsNum.nan)
      inactiveField current =
      UpdateResult.updated ⟨JsNum.nan, JsNum.nan,
        inactiveField.getD current.includeInactive, current.enabled⟩ :=
  ⟨rfl, rfl, rfl, rfl, rfl, rfl⟩

/-! Schedule-slot lemmas for the fire-time computation. -/

theorem scheduleTimesAux_mem (I : Nat) :
    ∀ (fuel h0 k0 : Nat), h0 = k0 * I →
      ∀ h ∈ scheduleTimesAux I fuel h0, ∃ k, h = k * I ∧ h < 24 := by
  intro fuel
  induction fuel with
  | zero => intro h0 k0 _ h hmem; simp [scheduleTimesAux] at hmem
  | succ fuel ih =>
    intro h0 k0 heq h hmem
    simp only [scheduleTimesAux] at hmem
    by_cases hlt : h0 < 24
    · rw [if_pos hlt] at hmem
      rcases List.mem_cons.1 hmem with hmem | hmem
      · exact ⟨k0, hmem ▸ heq, hmem ▸ hlt⟩
      · exact ih (h0 + I) (k0 + 1) (by rw [heq]; ring) h hmem
    · rw [if_neg hlt] at hmem
      simp at hmem

theorem getScheduleTimes_mem (I : Nat) :
    ∀ h ∈ getScheduleTimes I, ∃ k, h = k * I ∧ h < 24 :=
  scheduleTimesAux_mem I 24 0 0 (by ring)

theorem getScheduleTimes_headD (I : Nat) :
    (getScheduleTimes I).headD 0 = 0 := rfl

theorem addHours_hour_lt (t : STime) (k : Nat) : (addHours t k).hour < 24 :=
  Nat.mod_lt _ (by omega)

theorem getNextRunTime_slot (I ch cm : Nat) :
    ∀ t, getNextRunTime true true I ch cm = some t →
      (∃ k, t.hour = k * I ∧ t.hour < 24) ∧ t.minute = 0 := by
  intro t ht
  unfold getNextRunTime at ht
  simp only [Bool.not_true, Bool.or_self, Bool.false_eq_true, if_false] at ht
  cases hfind : (getScheduleTimes I).find? (fun hour =>
      decide (ch < hour) || (hour == ch && cm == 0)) with
  | some hh =>
    rw [hfind] at ht
    simp only [Option.some.injEq] at ht
    subst ht
    obtain ⟨k, hk, hlt⟩ := getScheduleTimes_mem I hh
      (List.mem_of_find?_eq_some hfind)
    exact ⟨⟨k, hk, hlt⟩, rfl⟩
  | none =>
    rw [hfind] at ht
    simp only [Option.some.injEq] at ht
    subst ht
    refine ⟨⟨0, ?_, ?_⟩, rfl⟩
    · rw [getScheduleTimes_headD]; ring
    · rw [getScheduleTimes_headD]; decide

theorem buildSchedules_mem (I : Nat) :
    ∀ (n : Nat) (t : STime), t.hour < 24 →
      ∀ u ∈ buildSchedules I n t,
        (∃ j, u.hour = (t.hour + j * I) % 24) ∧ u.minute = t.minute := by
  intro n
  induction n with
  | zero => intro t _ u hu; simp [buildSchedules] at hu
  | succ n ih =>
    intro t hlt u hu
    simp only [buildSchedules] at hu
    rcases List.mem_cons.1 hu with hu | hu
    · subst hu
      exact ⟨⟨0, by simp [Nat.mod_eq_of_lt hlt]⟩, rfl⟩
    · obtain ⟨⟨j, hj⟩, hm⟩ := ih (addHours t I) (addHours_hour_lt t I) u hu
      refine ⟨⟨j + 1, ?_⟩, ?_⟩
      · rw [hj]
        show ((t.hour + I) % 24 + j * I) % 24 = (t.hour + (j + 1) * I) % 24
        rw [Nat.mod_add_mod]
        congr 1
        ring
      · rw [hm]; rfl

/-- C9: for an enabled scheduler with armed timer and interval `I ≥ 1`, the
next fire time and every returned upcoming fire time fall on the hour slots
`(k * I) mod 24` at minute zero, including when `I` does not divide 24. -/
theorem fire_times_on_slots (I ch cm count : Nat) (hI : 1 ≤ I) :
    (∀ t, getNextRunTime true true I ch cm = some t →
      (∃ k, t.hour = (k * I) % 24) ∧ t.minute = 0) ∧
    (∀ t ∈ getNextRunTimes true true I ch cm count,
      (∃ k, t.hour = (k * I) % 24) ∧ t.minute = 0) := by
  have hfirst := getNextRunTime_slot I ch cm
  constructor
  · intro t ht
    obtain ⟨⟨k, hk, hlt⟩, hm⟩ := hfirst t ht
    refine ⟨⟨k, ?_⟩, hm⟩
    rw [hk]
    exact (Nat.mod_eq_of_lt (hk ▸ hlt)).symm
  · intro t ht
    unfold getNextRunTimes at ht
    simp only [Bool.not_true, Bool.or_self, Bool.false_eq_true,
      if_false] at ht
    cases hnr : getNextRunTime true true I ch cm with
    | none => rw [hnr] at ht; simp at ht
    | some firstRun =>
      rw [hnr] at ht
      obtain ⟨⟨k, hk, hklt⟩, hm⟩ := hfirst firstRun hnr
      rcases List.mem_cons.1 ht with ht | ht
      · subst ht
        refine ⟨⟨k, ?_⟩, hm⟩
        rw [hk]
        exact (Nat.mod_eq_of_lt (hk ▸ hklt)).symm
      · obtain ⟨⟨j, hj⟩, hmin⟩ := buildSchedules_mem I (count - 1)
          (addHours firstRun I) (addHours_hour_lt firstRun I) t ht
        refine ⟨⟨k + 1 + j, ?_⟩, ?_⟩
        · rw [hj]
          show ((firstRun.hour + I) % 24 + j * I) % 24 =
            ((k + 1 + j) * I) % 24
          rw [Nat.mod_add_mod, hk]
          congr 1
          ring
        · rw [hmin]
          exact hm

/-- Witness for C9 at interval 5 (which does not divide 24), current time
21:30, five upcoming times. -/
theorem fire_times_on_slots_witness :
    (1 : Nat) ≤ 5 ∧
    ((∀ t, getNextRunTime true true 5 21 30 = some t →
      (∃ k, t.hour = (k * 5) % 24) ∧ t.minute = 0) ∧
    (∀ t ∈ getNextRunTimes true true 5 21 30 5,
      (∃ k, t.hour = (k * 5) % 24) ∧ t.minute = 0)) :=
  ⟨by decide, fire_times_on_slots 5 21 30 5 (by decide)⟩

end EasySms
